import Mathlib

/-!
Shallow embedding of `qiskit_aer/backends/backendproperties.py`:
the `Nduv`, `GateProperties` and `AerBackendProperties` classes and the
`target_to_backend_properties` converter, together with proofs about them.

Python dictionaries are embedded as association lists in insertion order
(`dinsert` replaces the value of an existing key in place and appends fresh
keys at the end, exactly like `d[k] = v`; `dfind?` returns the value of the
first — and in a real dict, only — entry for a key, like `d[k]`).
Python numbers are embedded as rationals, exceptions as `Except String`.
-/

set_option autoImplicit false

namespace Aer

/-- Datetimes are opaque to this module: it only stores and compares them.
A datetime is either one supplied directly by the caller (`dt`) or the result
of parsing an ISO-8601 string with the external `dateutil.parser.isoparse`
collaborator (`iso`). -/
inductive Timestamp where
  | dt (n : Nat)
  | iso (s : String)
deriving DecidableEq

instance : Inhabited Timestamp := ⟨Timestamp.dt 0⟩

/-- Modelled from the spec: the external ISO-8601 parser
(`dateutil.parser.isoparse`) is a collaborator outside this repository; it
maps a string to the datetime it denotes. -/
def isoparse (s : String) : Timestamp := Timestamp.iso s

/-- Plain Python data as produced and consumed by `to_dict` / `from_dict`:
strings, numbers, ints, datetimes, `None`, lists and string-keyed dicts. -/
inductive Plain where
  | str (s : String)
  | num (q : ℚ)
  | int (n : Nat)
  | time (t : Timestamp)
  | nul
  | list (l : List Plain)
  | dict (d : List (String × Plain))

/-- Python single-quote character, used in source error messages. -/
def apos : String := String.singleton (Char.ofNat 39)

section Dict

variable {K V : Type} [DecidableEq K]

/-- Value of the first entry for key `k`, i.e. Python `d[k]` / `d.get(k)`. -/
def dfind? : List (K × V) → K → Option V
  | [], _ => none
  | (k', v) :: rest, k => if k' = k then some v else dfind? rest k

/-- Python `d[k] = v`: replace the value of an existing key in place,
otherwise append the new entry at the end (insertion order). -/
def dinsert : List (K × V) → K → V → List (K × V)
  | [], k, v => [(k, v)]
  | (k', v') :: rest, k, v =>
      if k' = k then (k', v) :: rest else (k', v') :: dinsert rest k v

/-- Python `d.update(ext)`: insert every entry of `ext` in order. -/
def dupdate (d ext : List (K × V)) : List (K × V) :=
  ext.foldl (fun acc e => dinsert acc e.1 e.2) d

end Dict

/-- The resolved per-entry property maps stored in the lookup indices:
property name to (unit-resolved value, measurement date). -/
abbrev PropMap := List (String × (ℚ × Timestamp))

/-- The qubit index `self._qubits`: qubit number to resolved property map. -/
abbrev QIdx := List (Nat × PropMap)

/-- The gate index `self._gates`: gate name to qubit tuple to resolved map. -/
abbrev GIdx := List (String × List (List Nat × PropMap))

/-- Modelled from the spec: the external unit resolver
(`qiskit.utils.units.apply_prefix`) is a collaborator outside this
repository.  Per the spec contract, a value tagged with a recognized
(possibly prefixed) unit resolves to `value * prefix_factor` in the base
unit, and an unrecognized unit string is a failure (`none`). -/
def prefixFactor (unit : String) : Option ℚ :=
  if unit = "" then some 1
  else if unit = "s" then some 1
  else if unit = "ms" then some (1 / 1000)
  else if unit = "us" then some (1 / 1000000)
  else if unit = "µs" then some (1 / 1000000)
  else if unit = "ns" then some (1 / 1000000000)
  else if unit = "Hz" then some 1
  else if unit = "kHz" then some 1000
  else if unit = "MHz" then some 1000000
  else if unit = "GHz" then some 1000000000
  else none

/-- The external resolver itself: `apply_prefix(value, unit)`. -/
def toBaseUnit (value : ℚ) (unit : String) : Option ℚ :=
  (prefixFactor unit).map (fun f => value * f)

/-- The `Nduv` class: one name-date-unit-value calibration record. -/
structure Nduv where
  date : Timestamp
  name : String
  unit : String
  value : ℚ
deriving DecidableEq

/-- `Nduv.to_dict`. -/
def Nduv.to_dict (x : Nduv) : Plain :=
  Plain.dict
    [("date", Plain.time x.date), ("name", Plain.str x.name),
     ("unit", Plain.str x.unit), ("value", Plain.num x.value)]

/-- `Nduv.from_dict`: `cls(**data)` requires exactly the four constructor
fields (a missing or extra keyword raises `TypeError`, embedded as `none`). -/
def Nduv.from_dict (p : Plain) : Option Nduv :=
  match p with
  | Plain.dict entries =>
    match dfind? entries "date", dfind? entries "name",
          dfind? entries "unit", dfind? entries "value" with
    | some (Plain.time d), some (Plain.str n),
      some (Plain.str u), some (Plain.num v) =>
        if entries.length = 4 then some ⟨d, n, u, v⟩ else none
    | _, _, _, _ => none
  | _ => none

/-- The `GateProperties` class; `data` is the `_data` extension bag holding
the optional extra keyword fields. -/
structure GateProperties where
  qubits : List Nat
  gate : String
  parameters : List Nduv
  data : List (String × Plain)

/-- The three core constructor fields of `GateProperties`. -/
def gpCoreKeys : List String := ["qubits", "gate", "parameters"]

/-- `GateProperties.to_dict`: the three core fields, then
`out_dict.update(self._data)`. -/
def GateProperties.to_dict (g : GateProperties) : Plain :=
  Plain.dict
    (dupdate
      [("qubits", Plain.list (g.qubits.map Plain.int)),
       ("gate", Plain.str g.gate),
       ("parameters", Plain.list (g.parameters.map Nduv.to_dict))]
      g.data)

/-- Parse every element of a list with `f`, failing if any element fails. -/
def parseList {α : Type} (f : Plain → Option α) : List Plain → Option (List α)
  | [] => some []
  | x :: rest =>
    match f x, parseList f rest with
    | some a, some l => some (a :: l)
    | _, _ => none

/-- Parse a serialized qubit index (a Python int). -/
def parseInt : Plain → Option Nat
  | Plain.int n => some n
  | _ => none

/-- `GateProperties.from_dict`: `parameters` is parsed into `Nduv` objects,
the `qubits`/`gate`/`parameters` keywords bind the core fields, and every
other key passes verbatim (in order) into the extension bag. -/
def GateProperties.from_dict (p : Plain) : Option GateProperties :=
  match p with
  | Plain.dict entries =>
    match dfind? entries "qubits", dfind? entries "gate",
          dfind? entries "parameters" with
    | some (Plain.list ql), some (Plain.str g), some (Plain.list pl) =>
      match parseList parseInt ql, parseList Nduv.from_dict pl with
      | some qs, some params =>
          some ⟨qs, g, params, entries.filter (fun e => decide (e.1 ∉ gpCoreKeys))⟩
      | _, _ => none
    | _, _, _ => none
  | _ => none

/-- The `last_update_date` argument of the snapshot constructor: a datetime,
an ISO-8601 string, or `None`. -/
inductive DateInput where
  | dt (t : Timestamp)
  | str (s : String)
  | nul

/-- The stored `last_update_date` field: strings are parsed with `isoparse`,
anything else is stored as-is. -/
def DateInput.toStamp : DateInput → Option Timestamp
  | DateInput.dt t => some t
  | DateInput.str s => some (isoparse s)
  | DateInput.nul => none

/-- The `AerBackendProperties` class.  `qubitIndex` and `gateIndex` are the
derived lookup dicts `self._qubits` and `self._gates`; `data` is the
`_data` extension bag. -/
structure AerBackendProperties where
  backend_name : String
  backend_version : String
  last_update_date : Option Timestamp
  qubits : List (List Nduv)
  gates : List GateProperties
  general : List Nduv
  qubitIndex : QIdx
  gateIndex : GIdx
  data : List (String × Plain)

/-- The six core constructor fields of `AerBackendProperties`. -/
def coreKeys : List String :=
  ["backend_name", "backend_version", "last_update_date", "qubits", "gates", "general"]

/-- `self._apply_prefix(value, unit)`: delegate to the external resolver and
re-raise any failure as `ValueError` naming the unit. -/
def applyPrefixChecked (value : ℚ) (unit : String) : Except String ℚ :=
  match toBaseUnit value unit with
  | some v => Except.ok v
  | none => Except.error ("Could not understand units: " ++ unit)

/-- The `formatted_props` loop body shared by both index builders: resolve
each record and store it under its name (`formatted_props[prop.name] = ...`,
last write wins). -/
def resolveProps : List Nduv → PropMap → Except String PropMap
  | [], acc => Except.ok acc
  | p :: rest, acc =>
    match applyPrefixChecked p.value p.unit with
    | Except.ok v => resolveProps rest (dinsert acc p.name (v, p.date))
    | Except.error e => Except.error e

/-- Building `self._qubits`: the source assigns `self._qubits[qubit]` inside
the per-property loop, so a qubit with an empty property list gets no entry
at all.  Keys are the ascending positions `i`, `i+1`, ..., each fresh, so
the dict is the ordered association list built here. -/
def buildQubitIndexAux : Nat → List (List Nduv) → Except String QIdx
  | _, [] => Except.ok []
  | i, props :: rest => do
    let fp ← resolveProps props []
    let tail ← buildQubitIndexAux (i + 1) rest
    if props.isEmpty then Except.ok tail else Except.ok ((i, fp) :: tail)

/-- Building `self._gates`: group by gate name, then store the resolved
parameter map under the key `tuple(gate.qubits)` (last write wins). -/
def buildGateIndex : List GateProperties → GIdx → Except String GIdx
  | [], acc => Except.ok acc
  | g :: rest, acc => do
    let fp ← resolveProps g.parameters []
    buildGateIndex rest
      (dinsert acc g.gate (dinsert ((dfind? acc g.gate).getD []) g.qubits fp))

/-- `AerBackendProperties.__init__`.  The keyword-argument check models the
Python calling convention itself: a `**kwargs` dict has unique keys and a
keyword that collides with a named parameter raises `TypeError` before the
body runs. -/
def mkProps (bn bv : String) (lud : DateInput) (qubits : List (List Nduv))
    (gates : List GateProperties) (general : List Nduv)
    (kwargs : List (String × Plain)) : Except String AerBackendProperties :=
  if (kwargs.map Prod.fst).Nodup ∧ ∀ k ∈ kwargs.map Prod.fst, k ∉ coreKeys then do
    let qi ← buildQubitIndexAux 0 qubits
    let gi ← buildGateIndex gates []
    Except.ok ⟨bn, bv, lud.toStamp, qubits, gates, general, qi, gi, kwargs⟩
  else Except.error "TypeError: invalid keyword arguments"

/-- Serialization of the stored `last_update_date`. -/
def plainOfDate : Option Timestamp → Plain
  | none => Plain.nul
  | some t => Plain.time t

/-- `AerBackendProperties.to_dict`: identity fields, nested plain forms,
then `out_dict.update(self._data)`. -/
def AerBackendProperties.to_dict (S : AerBackendProperties) : Plain :=
  Plain.dict
    (dupdate
      [("backend_name", Plain.str S.backend_name),
       ("backend_version", Plain.str S.backend_version),
       ("last_update_date", plainOfDate S.last_update_date),
       ("qubits", Plain.list (S.qubits.map (fun ps => Plain.list (ps.map Nduv.to_dict)))),
       ("gates", Plain.list (S.gates.map GateProperties.to_dict)),
       ("general", Plain.list (S.general.map Nduv.to_dict))]
      S.data)

/-- Recover a `last_update_date` argument from its plain form. -/
def plainToDateInput : Plain → Option DateInput
  | Plain.time t => some (DateInput.dt t)
  | Plain.str s => some (DateInput.str s)
  | Plain.nul => some DateInput.nul
  | _ => none

/-- Parse one serialized per-qubit property list. -/
def parseQubitEntry : Plain → Option (List Nduv)
  | Plain.list pl => parseList Nduv.from_dict pl
  | _ => none

/-- `AerBackendProperties.from_dict`: pop the six core keys (a missing one
raises `KeyError`), reconstruct the nested records, and forward every
remaining key in order as an extension keyword to the constructor. -/
def AerBackendProperties.from_dict (p : Plain) : Except String AerBackendProperties :=
  match p with
  | Plain.dict entries =>
    match dfind? entries "backend_name", dfind? entries "backend_version",
          dfind? entries "last_update_date", dfind? entries "qubits",
          dfind? entries "gates", dfind? entries "general" with
    | some (Plain.str bn), some (Plain.str bv), some ludp,
      some (Plain.list qs), some (Plain.list gs), some (Plain.list gen) =>
      match plainToDateInput ludp, parseList parseQubitEntry qs,
            parseList GateProperties.from_dict gs, parseList Nduv.from_dict gen with
      | some lud, some qubits, some gates, some general =>
          mkProps bn bv lud qubits gates general
            (entries.filter (fun e => decide (e.1 ∉ coreKeys)))
      | _, _, _, _ => Except.error "from_dict: malformed nested data"
    | _, _, _, _, _, _ => Except.error "KeyError"
  | _ => Except.error "from_dict: not a dict"

/-- The `qubits` argument of `gate_property`: a single int or a sequence. -/
inductive PyQubits where
  | int (n : Nat)
  | seq (l : List Nat)

/-- `if isinstance(qubits, int): qubits = (qubits,)` followed by
`tuple(qubits)`. -/
def PyQubits.toTuple : PyQubits → List Nat
  | PyQubits.int n => [n]
  | PyQubits.seq l => l

/-- The possible results of `gate_property`: the whole by-tuple dict, one
tuple's property dict, or one resolved (value, date) pair. -/
inductive GPResult where
  | full (d : List (List Nat × PropMap))
  | props (p : PropMap)
  | single (vd : ℚ × Timestamp)

/-- The possible results of `qubit_property`. -/
inductive QPResult where
  | props (p : PropMap)
  | single (vd : ℚ × Timestamp)

/-- Python truthiness of the optional `name` argument: `if name:` is false
for both `None` and the empty string. -/
def strTruthy : Option String → Bool
  | none => false
  | some s => decide (s ≠ "")

/-- `AerBackendProperties.gate_property`.  A `KeyError` at any narrowing
step is re-raised as the "could not find" `ValueError`; the "provide
qubits" `ValueError` is raised directly (it is not a `KeyError`, so the
handler does not catch it). -/
def AerBackendProperties.gate_property (S : AerBackendProperties) (gate : String)
    (qubits : Option PyQubits) (name : Option String) : Except String GPResult :=
  match dfind? S.gateIndex gate with
  | none => Except.error ("Could not find the desired property for " ++ gate)
  | some byTuple =>
    match qubits with
    | some qs =>
      match dfind? byTuple qs.toTuple with
      | none => Except.error ("Could not find the desired property for " ++ gate)
      | some props =>
        if strTruthy name then
          match dfind? props (name.getD "") with
          | none => Except.error ("Could not find the desired property for " ++ gate)
          | some vd => Except.ok (GPResult.single vd)
        else Except.ok (GPResult.props props)
    | none =>
      if strTruthy name then
        Except.error ("Provide qubits to get " ++ name.getD "" ++ " of " ++ gate)
      else Except.ok (GPResult.full byTuple)

/-- The error message of `qubit_property`: the message (unlike the lookup
itself) uses truthiness of `name`. -/
def qpMsg (name : Option String) (qubit : Nat) : String :=
  "Couldn" ++ apos ++ "t find the propert" ++
    (if strTruthy name then "y " ++ apos ++ name.getD "" ++ apos else "ies") ++
    " for qubit " ++ toString qubit ++ "."

/-- `AerBackendProperties.qubit_property`.  The narrowing test is
`if name is not None`, so an empty-string name does narrow here. -/
def AerBackendProperties.qubit_property (S : AerBackendProperties) (qubit : Nat)
    (name : Option String) : Except String QPResult :=
  match dfind? S.qubitIndex qubit with
  | none => Except.error (qpMsg name qubit)
  | some props =>
    match name with
    | none => Except.ok (QPResult.props props)
    | some n =>
      match dfind? props n with
      | none => Except.error (qpMsg name qubit)
      | some vd => Except.ok (QPResult.single vd)

/-- The shared `"operational"` check: `bool(properties["operational"][0])`
if the key is present (a resolved value is truthy iff nonzero), else the
default `True`. -/
def opFlag (props : PropMap) : Bool :=
  match dfind? props "operational" with
  | some vd => decide (vd.1 ≠ 0)
  | none => true

/-- `AerBackendProperties.is_gate_operational`.  When `gate_property`
returns the by-tuple dict (qubits omitted), `"operational" in properties`
compares the string against tuple keys, which is always false in Python,
so the default `True` is returned; likewise a string is never a member of
a `(value, date)` tuple. -/
def AerBackendProperties.is_gate_operational (S : AerBackendProperties)
    (gate : String) (qubits : Option PyQubits) : Except String Bool :=
  match S.gate_property gate qubits none with
  | Except.error e => Except.error e
  | Except.ok (GPResult.props p) => Except.ok (opFlag p)
  | Except.ok (GPResult.full _) => Except.ok true
  | Except.ok (GPResult.single _) => Except.ok true

/-- `AerBackendProperties.is_qubit_operational`.  A missing qubit raises the
lookup `ValueError` from `qubit_property` (uncaught).  As above, a string is
never a member of a `(value, date)` tuple. -/
def AerBackendProperties.is_qubit_operational (S : AerBackendProperties)
    (qubit : Nat) : Except String Bool :=
  match S.qubit_property qubit none with
  | Except.error e => Except.error e
  | Except.ok (QPResult.props p) => Except.ok (opFlag p)
  | Except.ok (QPResult.single _) => Except.ok true

/-- The `for qubit in self._qubits` loop of `faulty_qubits`, over the
remaining keys of the qubit index in insertion order. -/
def faultyAux (S : AerBackendProperties) : QIdx → Except String (List Nat)
  | [] => Except.ok []
  | (q, _) :: rest => do
    let b ← S.is_qubit_operational q
    let tail ← faultyAux S rest
    Except.ok (if b then tail else q :: tail)

/-- `AerBackendProperties.faulty_qubits`. -/
def AerBackendProperties.faulty_qubits (S : AerBackendProperties) :
    Except String (List Nat) :=
  faultyAux S S.qubitIndex

/-! ## The `target_to_backend_properties` converter -/

/-- The public contract of `InstructionProperties` used by the converter:
an optional duration (seconds) and an optional error (dimensionless). -/
structure InstructionProperties where
  duration : Option ℚ
  error : Option ℚ
deriving DecidableEq

/-- The public contract of `qiskit.transpiler.Target` used by the
converter: a declared qubit count and the iterable of
(operation name, qubit-tuple-or-None -> properties) entries. -/
structure Target where
  num_qubits : Option Nat
  items : List (String × List (Option (List Nat) × InstructionProperties))

/-- One synthesized plain NDV dict, dated at conversion time. -/
def ndvDict (now : Timestamp) (nm unit : String) (v : ℚ) : Plain :=
  Plain.dict
    [("date", Plain.time now), ("name", Plain.str nm),
     ("unit", Plain.str unit), ("value", Plain.num v)]

/-- The `property_list` of the non-measure branch: `gate_length` from the
duration, then `gate_error` from the error. -/
def gatePropList (now : Timestamp) (props : InstructionProperties) : List Plain :=
  (match props.duration with
   | some d => [ndvDict now "gate_length" "s" d]
   | none => []) ++
  (match props.error with
   | some e => [ndvDict now "gate_error" "" e]
   | none => [])

/-- The plain gate record appended for one non-measure (qargs, props) pair.
`name` is the gate name concatenated with the `_`-joined qubit indices. -/
def mkGateDict (now : Timestamp) (gate : String) (l : List Nat)
    (property_list : List Plain) : Plain :=
  Plain.dict
    [("gate", Plain.str gate),
     ("qubits", Plain.list (l.map Plain.int)),
     ("parameters", Plain.list property_list),
     ("name", Plain.str (gate ++ String.intercalate "_" (l.map toString)))]

/-- The inner loop of the non-measure branch: skip a pair whose
`property_list` is empty, otherwise emit a gate record (`list(qargs)`
raises `TypeError` when `qargs` is `None`). -/
def processGateEntries (now : Timestamp) (gate : String) :
    List (Option (List Nat) × InstructionProperties) → Except String (List Plain)
  | [] => Except.ok []
  | (qargs, props) :: rest =>
    let property_list := gatePropList now props
    if property_list.isEmpty then processGateEntries now gate rest
    else
      match qargs with
      | none => Except.error "TypeError: NoneType is not iterable"
      | some l => do
        let tail ← processGateEntries now gate rest
        Except.ok (mkGateDict now gate l property_list :: tail)

/-- The `props_list` of the measure branch: `readout_error` from the error,
then `readout_length` from the duration. -/
def measurePropList (now : Timestamp) (props : InstructionProperties) : List Plain :=
  (match props.error with
   | some e => [ndvDict now "readout_error" "" e]
   | none => []) ++
  (match props.duration with
   | some d => [ndvDict now "readout_length" "s" d]
   | none => [])

/-- The initial `qubit_props` map: one unset slot per declared qubit. -/
def initSlots : Option Nat → List (Nat × Option (List Plain))
  | none => []
  | some n => (List.range n).map (fun i => (i, none))

/-- The measure-branch scan: skip `None` qargs; `qargs[0]` raises
`IndexError` on an empty tuple; an entry with neither error nor duration
resets the whole map to empty and breaks; otherwise the qubit's slot is
assigned. -/
def measureScan (now : Timestamp) :
    List (Option (List Nat) × InstructionProperties) →
    List (Nat × Option (List Plain)) →
    Except String (List (Nat × Option (List Plain)))
  | [], acc => Except.ok acc
  | (qargs, props) :: rest, acc =>
    match qargs with
    | none => measureScan now rest acc
    | some [] => Except.error "IndexError: tuple index out of range"
    | some (q :: _) =>
      let props_list := measurePropList now props
      if props_list.isEmpty then Except.ok []
      else measureScan now rest (dinsert acc q (some props_list))

/-- A list comprehension: elements in order, aborting at the first raise. -/
def mapExcept {α β : Type} (f : α → Except String β) : List α → Except String (List β)
  | [] => Except.ok []
  | x :: rest => do
    let b ← f x
    let tail ← mapExcept f rest
    Except.ok (b :: tail)

/-- `[qubit_props[i] for i in range(target.num_qubits)]`: `range(None)`
raises `TypeError` and a missing key raises `KeyError`; an unset slot would
yield `None` verbatim. -/
def extractSlots (n : Option Nat) (qp : List (Nat × Option (List Plain))) :
    Except String (List Plain) :=
  match n with
  | none => Except.error "TypeError: range of NoneType"
  | some nq =>
    mapExcept (fun i =>
      match dfind? qp i with
      | some (some pl) => Except.ok (Plain.list pl)
      | some none => Except.ok Plain.nul
      | none => Except.error "KeyError") (List.range nq)

/-- The single pass over `target.items()`: non-measure entries extend the
`gates` list; the measure entry rebuilds `qubit_props` and assigns the
`qubits` list only when the map is nonempty with every slot set. -/
def convLoop (now : Timestamp) :
    List (String × List (Option (List Nat) × InstructionProperties)) →
    List Plain → List Plain → Option Nat → Except String (List Plain × List Plain)
  | [], gates, qubits, _ => Except.ok (gates, qubits)
  | (gate, ql) :: rest, gates, qubits, n =>
    if gate ≠ "measure" then do
      let newGates ← processGateEntries now gate ql
      convLoop now rest (gates ++ newGates) qubits n
    else do
      let qp ← measureScan now ql (initSlots n)
      if qp.isEmpty || qp.any (fun s => s.2.isNone) then
        convLoop now rest gates qubits n
      else do
        let qus ← extractSlots n qp
        convLoop now rest gates qus n

/-- `target_to_backend_properties`: when either list was produced, build the
plain dict (empty identity fields, `None` update date, empty `general`) and
deserialize it; otherwise return `None`. -/
def target_to_backend_properties (now : Timestamp) (t : Target) :
    Except String (Option AerBackendProperties) := do
  let r ← convLoop now t.items [] [] t.num_qubits
  if r.1.isEmpty && r.2.isEmpty then Except.ok none
  else do
    let S ← AerBackendProperties.from_dict
      (Plain.dict
        [("backend_name", Plain.str ""), ("backend_version", Plain.str ""),
         ("last_update_date", Plain.nul), ("general", Plain.list []),
         ("gates", Plain.list r.1), ("qubits", Plain.list r.2)])
    Except.ok (some S)

/-! ## Specification-side definitions used by the theorems -/

/-- The resolved property map of one record list (junk on failure; only used
where resolution is known to succeed). -/
def resolveD (props : List Nduv) : PropMap :=
  match resolveProps props [] with
  | Except.ok r => r
  | Except.error _ => []

/-- Specification of the qubit index: ascending positions, entries only for
nonempty property lists. -/
def qIdxSpec : Nat → List (List Nduv) → QIdx
  | _, [] => []
  | i, ps :: rest =>
    if ps.isEmpty then qIdxSpec (i + 1) rest
    else (i, resolveD ps) :: qIdxSpec (i + 1) rest

/-- One level-two lookup: gate name, then qubit tuple. -/
def dfind2 (gi : GIdx) (G : String) (Q : List Nat) : Option PropMap :=
  match dfind? gi G with
  | none => none
  | some bt => dfind? bt Q

/-- Whether a record carries the given (gate name, qubit tuple) key. -/
def keyMatch (G : String) (Q : List Nat) (g : GateProperties) : Bool :=
  decide (g.gate = G) && decide (g.qubits = Q)

/-- The last record in the list carrying the given key, if any. -/
def lastMatch (G : String) (Q : List Nat) : List GateProperties → Option GateProperties
  | [] => none
  | g :: rest =>
    match lastMatch G Q rest with
    | some g' => some g'
    | none => if keyMatch G Q g then some g else none

/-- The full three-level lookup made by `gate_property` with all arguments. -/
def lookup3 (gi : GIdx) (G : String) (Q : List Nat) (n : String) :
    Option (ℚ × Timestamp) :=
  match dfind2 gi G Q with
  | none => none
  | some props => dfind? props n

/-- The qubit indices `faulty_qubits` reports, computed from the raw input:
positions with a nonempty property list whose resolved `"operational"` value
is recorded and zero. -/
def faultySpecList (qubits : List (List Nduv)) : List Nat :=
  (List.range qubits.length).filterMap (fun i =>
    if (qubits.getD i []).isEmpty then none
    else if opFlag (resolveD (qubits.getD i [])) then none else some i)

/-- A `GateProperties` value that Python could have constructed: its
extension bag has unique keys, none colliding with a core field name. -/
def GateProperties.wfBag (g : GateProperties) : Prop :=
  (g.data.map Prod.fst).Nodup ∧ ∀ k ∈ g.data.map Prod.fst, k ∉ gpCoreKeys

/-- A serialized NDV the converter may emit: it parses back, and its unit
is one the resolver recognizes. -/
def GoodNdvPlain (p : Plain) : Prop :=
  ∃ nd, Nduv.from_dict p = some nd ∧ (prefixFactor nd.unit).isSome

/-- A serialized gate record the converter may emit: it parses back, and
every parameter's unit is recognized. -/
def GoodGatePlain (p : Plain) : Prop :=
  ∃ gp, GateProperties.from_dict p = some gp ∧
    ∀ nd ∈ gp.parameters, (prefixFactor nd.unit).isSome

/-- A serialized per-qubit property list the converter may emit. -/
def GoodQubitPlain (p : Plain) : Prop :=
  ∃ pl, p = Plain.list pl ∧ ∀ x ∈ pl, GoodNdvPlain x

instance : Inhabited AerBackendProperties :=
  ⟨⟨"", "", none, [], [], [], [], [], []⟩⟩

/-- Extract the snapshot of a successful construction (junk on failure;
only used on calls known to succeed). -/
def getOk (e : Except String AerBackendProperties) : AerBackendProperties :=
  match e with
  | Except.ok S => S
  | Except.error _ => default

/-- Extract the snapshot of a successful conversion (junk on failure or
`None`; only used on calls known to convert). -/
def getSome (e : Except String (Option AerBackendProperties)) : AerBackendProperties :=
  match e with
  | Except.ok (some S) => S
  | _ => default

instance {α β : Type} [DecidableEq α] [DecidableEq β] : DecidableEq (Except α β) :=
  fun a b =>
  match a, b with
  | Except.ok x, Except.ok y =>
    if h : x = y then isTrue (by rw [h])
    else isFalse (fun he => h ((Except.ok.injEq x y).mp he))
  | Except.ok x, Except.error y => isFalse (fun he => Except.noConfusion he)
  | Except.error x, Except.ok y => isFalse (fun he => Except.noConfusion he)
  | Except.error x, Except.error y =>
    if h : x = y then isTrue (by rw [h])
    else isFalse (fun he => h ((Except.error.injEq x y).mp he))

/-! ## Concrete sample data -/

def wTime : Timestamp := Timestamp.dt 0

def wT1 : Nduv := ⟨wTime, "T1", "µs", 100⟩

def wOpNd : Nduv := ⟨wTime, "operational", "", 0⟩

def wErrNd : Nduv := ⟨wTime, "gate_error", "", 1 / 100⟩

def wGate : GateProperties := ⟨[0, 1], "cx", [wErrNd, wOpNd], []⟩

def wSnap : AerBackendProperties :=
  getOk (mkProps "aer" "1" (DateInput.str "2024-05-01") [[wT1], [wOpNd], []] [wGate] [] [])

def wByTuple : List (List Nat × PropMap) := (dfind? wSnap.gateIndex "cx").getD []

def wProps : PropMap := resolveD [wErrNd, wOpNd]

def wEmptyNd : Nduv := ⟨wTime, "", "", 1⟩

def wGateE : GateProperties := ⟨[0], "rz", [wEmptyNd], []⟩

def wSnapE : AerBackendProperties :=
  getOk (mkProps "aer" "1" DateInput.nul [] [wGateE] [] [])

def wBadNd : Nduv := ⟨wTime, "T1", "xyz", 1⟩

def wDupA : GateProperties := ⟨[0], "x", [⟨wTime, "gate_error", "", 1 / 10⟩], []⟩

def wDupB : GateProperties := ⟨[0], "x", [⟨wTime, "gate_error", "", 1 / 5⟩], []⟩

def wSnapD : AerBackendProperties :=
  getOk (mkProps "a" "1" DateInput.nul [] [wDupA, wDupB] [] [])

/-- A Target with gate data and incomplete measure coverage (qubit 1's
measure entry has neither error nor duration). -/
def wTg1 : Target :=
  ⟨some 2,
   [("cx", [(some [0, 1], ⟨some (3 / 100), none⟩)]),
    ("measure", [(some [0], ⟨none, some (1 / 50)⟩), (some [1], ⟨none, none⟩)])]⟩

/-- A Target with no gate timing/error data and no measure data at all. -/
def wTg2 : Target :=
  ⟨some 1,
   [("cx", [(some [0], ⟨none, none⟩)]),
    ("measure", [(some [0], ⟨none, none⟩)])]⟩

def wConvS : AerBackendProperties := getSome (target_to_backend_properties wTime wTg1)

/-! ## Dictionary lemmas -/

section DictLemmas

variable {K V : Type} [DecidableEq K]

theorem dfind?_dinsert (d : List (K × V)) (k k' : K) (v : V) :
    dfind? (dinsert d k v) k' = if k = k' then some v else dfind? d k' := by
  induction d with
  | nil => simp [dinsert, dfind?]
  | cons e rest ih =>
    obtain ⟨ek, ev⟩ := e
    by_cases hek : ek = k
    · subst hek
      by_cases hkk : ek = k'
      · simp [dinsert, dfind?, hkk]
      · simp [dinsert, dfind?, hkk]
    · by_cases hkk : ek = k'
      · subst hkk
        have hne : ¬k = ek := fun h => hek h.symm
        simp [dinsert, dfind?, hek, hne]
      · simp [dinsert, dfind?, hek, hkk, ih]

theorem dfind?_append_left {a : List (K × V)} (b : List (K × V)) {k : K} {v : V}
    (h : dfind? a k = some v) : dfind? (a ++ b) k = some v := by
  induction a with
  | nil => simp [dfind?] at h
  | cons e rest ih =>
    obtain ⟨ek, ev⟩ := e
    by_cases hek : ek = k
    · simpa [dfind?, hek] using h
    · rw [List.cons_append, dfind?, if_neg hek]
      rw [dfind?, if_neg hek] at h
      exact ih h

theorem dfind?_append_right {a : List (K × V)} (b : List (K × V)) {k : K}
    (h : dfind? a k = none) : dfind? (a ++ b) k = dfind? b k := by
  induction a with
  | nil => simp [dfind?]
  | cons e rest ih =>
    obtain ⟨ek, ev⟩ := e
    by_cases hek : ek = k
    · rw [dfind?, if_pos hek] at h; cases h
    · rw [List.cons_append, dfind?, if_neg hek]
      rw [dfind?, if_neg hek] at h
      exact ih h

theorem dfind?_eq_none_of_not_mem {d : List (K × V)} {k : K}
    (h : k ∉ d.map Prod.fst) : dfind? d k = none := by
  induction d with
  | nil => rfl
  | cons e rest ih =>
    simp only [List.map_cons, List.mem_cons, not_or] at h
    have hne : ¬e.1 = k := fun he => h.1 he.symm
    obtain ⟨ek, ev⟩ := e
    rw [dfind?, if_neg hne]
    exact ih h.2

theorem dfind?_of_mem_nodup {d : List (K × V)} {k : K} {v : V}
    (hmem : (k, v) ∈ d) (hnd : (d.map Prod.fst).Nodup) : dfind? d k = some v := by
  induction d with
  | nil => simp at hmem
  | cons e rest ih =>
    rw [List.map_cons, List.nodup_cons] at hnd
    rcases List.mem_cons.mp hmem with he | hrest
    · obtain ⟨ek, ev⟩ := e
      cases he
      rw [dfind?, if_pos rfl]
    · have hk : e.1 ≠ k := by
        intro h
        apply hnd.1
        have : (k, v).1 ∈ rest.map Prod.fst := List.mem_map_of_mem Prod.fst hrest
        simpa [h] using this
      obtain ⟨ek, ev⟩ := e
      rw [dfind?, if_neg hk]
      exact ih hrest hnd.2

/-- Inserting a key that is not present appends the entry. -/
theorem dinsert_fresh {d : List (K × V)} {k : K} (v : V)
    (h : k ∉ d.map Prod.fst) : dinsert d k v = d ++ [(k, v)] := by
  induction d with
  | nil => simp [dinsert]
  | cons e rest ih =>
    simp only [List.map_cons, List.mem_cons, not_or] at h
    have hne : ¬e.1 = k := fun he => h.1 he.symm
    obtain ⟨ek, ev⟩ := e
    rw [dinsert, if_neg hne, ih h.2]
    rfl

/-- Folding `dinsert` over fresh, mutually distinct keys is plain append. -/
theorem dupdate_eq_append (d : List (K × V)) (ext : List (K × V))
    (hnd : (ext.map Prod.fst).Nodup)
    (hdis : ∀ k ∈ ext.map Prod.fst, k ∉ d.map Prod.fst) :
    dupdate d ext = d ++ ext := by
  induction ext generalizing d with
  | nil => simp [dupdate]
  | cons e rest ih =>
    obtain ⟨ek, ev⟩ := e
    rw [List.map_cons, List.nodup_cons] at hnd
    have hfresh : ek ∉ d.map Prod.fst := hdis ek (by simp)
    have hstep : dupdate d ((ek, ev) :: rest) = dupdate (d ++ [(ek, ev)]) rest := by
      simp [dupdate, dinsert_fresh ev hfresh]
    rw [hstep, ih (d ++ [(ek, ev)]) hnd.2]
    · simp
    · intro k hk
      simp only [List.map_append, List.mem_append, not_or]
      refine ⟨hdis k (by simp [hk]), ?_⟩
      simp only [List.map_cons, List.map_nil, List.mem_singleton]
      intro hke
      subst hke
      exact hnd.1 hk

end DictLemmas

/-! ## Unit-resolution lemmas -/

theorem resolveProps_ok_of {l : List Nduv} (acc : PropMap)
    (h : ∀ nd ∈ l, (toBaseUnit nd.value nd.unit).isSome) :
    ∃ r, resolveProps l acc = Except.ok r := by
  induction l generalizing acc with
  | nil => exact ⟨acc, rfl⟩
  | cons p rest ih =>
    have hp := h p (by simp)
    obtain ⟨v, hv⟩ := Option.isSome_iff_exists.mp hp
    have : applyPrefixChecked p.value p.unit = Except.ok v := by
      simp [applyPrefixChecked, hv]
    simpa [resolveProps, this] using
      ih (dinsert acc p.name (v, p.date)) (fun nd hnd => h nd (by simp [hnd]))

theorem resolveProps_error_mem {l : List Nduv} {acc : PropMap} {m : String}
    (h : resolveProps l acc = Except.error m) :
    ∃ nd ∈ l, toBaseUnit nd.value nd.unit = none ∧
      m = "Could not understand units: " ++ nd.unit := by
  induction l generalizing acc with
  | nil => simp [resolveProps] at h
  | cons p rest ih =>
    rcases hb : toBaseUnit p.value p.unit with _ | v
    · have : applyPrefixChecked p.value p.unit =
          Except.error ("Could not understand units: " ++ p.unit) := by
        simp [applyPrefixChecked, hb]
      rw [resolveProps, this] at h
      exact ⟨p, by simp, hb, (Except.error.injEq _ _).mp h.symm⟩
    · have : applyPrefixChecked p.value p.unit = Except.ok v := by
        simp [applyPrefixChecked, hb]
      rw [resolveProps, this] at h
      obtain ⟨nd, hnd, hfail, hm⟩ := ih h
      exact ⟨nd, by simp [hnd], hfail, hm⟩

theorem resolveProps_error_of {l : List Nduv} {nd : Nduv} (acc : PropMap)
    (hmem : nd ∈ l) (hfail : toBaseUnit nd.value nd.unit = none) :
    ∃ m, resolveProps l acc = Except.error m := by
  induction l generalizing acc with
  | nil => simp at hmem
  | cons p rest ih =>
    rcases hb : toBaseUnit p.value p.unit with _ | v
    · refine ⟨"Could not understand units: " ++ p.unit, ?_⟩
      simp [resolveProps, applyPrefixChecked, hb]
    · rcases List.mem_cons.mp hmem with he | hrest
      · subst he; rw [hb] at hfail; cases hfail
      · have : applyPrefixChecked p.value p.unit = Except.ok v := by
          simp [applyPrefixChecked, hb]
        simpa [resolveProps, this] using ih (dinsert acc p.name (v, p.date)) hrest

theorem resolveProps_ok_resolves {l : List Nduv} {acc r : PropMap}
    (h : resolveProps l acc = Except.ok r) :
    ∀ nd ∈ l, (toBaseUnit nd.value nd.unit).isSome := by
  intro nd hmem
  rcases hb : toBaseUnit nd.value nd.unit with _ | v
  · obtain ⟨m, hm⟩ := resolveProps_error_of acc hmem hb
    rw [hm] at h; cases h
  · simp

/-- A name untouched by the remaining records keeps its binding. -/
theorem resolveProps_preserves {l : List Nduv} {acc r : PropMap} {k : String}
    (h : resolveProps l acc = Except.ok r) (hk : ∀ nd ∈ l, nd.name ≠ k) :
    dfind? r k = dfind? acc k := by
  induction l generalizing acc with
  | nil => cases h; rfl
  | cons p rest ih =>
    rcases hb : applyPrefixChecked p.value p.unit with m | v
    · rw [resolveProps, hb] at h; cases h
    · rw [resolveProps, hb] at h
      rw [ih h (fun nd hnd => hk nd (by simp [hnd])), dfind?_dinsert]
      simp [hk p (by simp)]

/-- The resolved entry of a record whose name is not repeated later. -/
theorem resolveProps_find {l : List Nduv} {acc r : PropMap} {nd : Nduv}
    (h : resolveProps l acc = Except.ok r) (hmem : nd ∈ l)
    (hnd : (l.map Nduv.name).Nodup) :
    ∃ v, toBaseUnit nd.value nd.unit = some v ∧
      dfind? r nd.name = some (v, nd.date) := by
  induction l generalizing acc with
  | nil => simp at hmem
  | cons p rest ih =>
    simp at hnd
    rcases hb : applyPrefixChecked p.value p.unit with m | v
    · rw [resolveProps, hb] at h; cases h
    · rw [resolveProps, hb] at h
      have hbv : toBaseUnit p.value p.unit = some v := by
        by_cases hsome : (toBaseUnit p.value p.unit).isSome
        · obtain ⟨w, hw⟩ := Option.isSome_iff_exists.mp hsome
          simp [applyPrefixChecked, hw] at hb
          rw [hw, hb]
        · rw [Option.not_isSome_iff_eq_none] at hsome
          simp [applyPrefixChecked, hsome] at hb
      rcases List.mem_cons.mp hmem with he | hrest
      · subst he
        refine ⟨v, hbv, ?_⟩
        rw [resolveProps_preserves h ?_, dfind?_dinsert]
        · simp
        · intro q hq hqn
          exact hnd.1 q hq hqn
      · exact ih h hrest hnd.2

/-! ## Index-builder lemmas -/

theorem except_bind_ok {α β : Type} (a : α) (f : α → Except String β) :
    (Except.ok a : Except String α) >>= f = f a := rfl

theorem except_bind_error {α β : Type} (m : String) (f : α → Except String β) :
    (Except.error m : Except String α) >>= f = Except.error m := rfl

theorem buildQubitIndexAux_ok_resolves {i : Nat} {l : List (List Nduv)} {idx : QIdx}
    (h : buildQubitIndexAux i l = Except.ok idx) :
    ∀ nd ∈ l.flatten, (toBaseUnit nd.value nd.unit).isSome := by
  induction l generalizing i idx with
  | nil => simp
  | cons ps rest ih =>
    rcases hr : resolveProps ps [] with m | fp
    · rw [buildQubitIndexAux, hr, except_bind_error] at h; cases h
    · rw [buildQubitIndexAux, hr, except_bind_ok] at h
      rcases ht : buildQubitIndexAux (i + 1) rest with m | tail
      · rw [ht, except_bind_error] at h; cases h
      · intro nd hnd
        rw [List.flatten_cons, List.mem_append] at hnd
        rcases hnd with hhead | htail
        · exact resolveProps_ok_resolves hr nd hhead
        · exact ih ht nd htail

theorem buildQubitIndexAux_eq_spec {l : List (List Nduv)} (i : Nat)
    (h : ∀ nd ∈ l.flatten, (toBaseUnit nd.value nd.unit).isSome) :
    buildQubitIndexAux i l = Except.ok (qIdxSpec i l) := by
  induction l generalizing i with
  | nil => rfl
  | cons ps rest ih =>
    obtain ⟨fp, hfp⟩ := resolveProps_ok_of (l := ps) []
      (fun nd hnd => h nd (by rw [List.flatten_cons, List.mem_append]; exact Or.inl hnd))
    have htail := ih (i + 1)
      (fun nd hnd => h nd (by rw [List.flatten_cons, List.mem_append]; exact Or.inr hnd))
    rw [buildQubitIndexAux, hfp, except_bind_ok, htail, except_bind_ok, qIdxSpec]
    have : resolveD ps = fp := by rw [resolveD, hfp]
    by_cases hps : ps.isEmpty
    · simp [hps]
    · simp [hps, this]

theorem buildQubitIndexAux_ok {i : Nat} {l : List (List Nduv)} {idx : QIdx}
    (h : buildQubitIndexAux i l = Except.ok idx) : idx = qIdxSpec i l := by
  have := buildQubitIndexAux_eq_spec i (buildQubitIndexAux_ok_resolves h)
  rw [this] at h
  exact ((Except.ok.injEq _ _).mp h).symm

theorem buildQubitIndexAux_error_mem {i : Nat} {l : List (List Nduv)} {m : String}
    (h : buildQubitIndexAux i l = Except.error m) :
    ∃ nd ∈ l.flatten, toBaseUnit nd.value nd.unit = none ∧
      m = "Could not understand units: " ++ nd.unit := by
  induction l generalizing i with
  | nil => cases h
  | cons ps rest ih =>
    rcases hr : resolveProps ps [] with m' | fp
    · rw [buildQubitIndexAux, hr, except_bind_error] at h
      obtain ⟨nd, hnd, hfail, hm⟩ := resolveProps_error_mem hr
      cases h
      exact ⟨nd, by rw [List.flatten_cons, List.mem_append]; exact Or.inl hnd, hfail, hm⟩
    · rw [buildQubitIndexAux, hr, except_bind_ok] at h
      rcases ht : buildQubitIndexAux (i + 1) rest with m' | tail
      · rw [ht, except_bind_error] at h
        cases h
        obtain ⟨nd, hnd, hfail, hm⟩ := ih ht
        exact ⟨nd, by rw [List.flatten_cons, List.mem_append]; exact Or.inr hnd, hfail, hm⟩
      · rw [ht, except_bind_ok] at h
        by_cases hps : ps.isEmpty <;> simp [hps] at h

theorem qIdxSpec_key_le {i : Nat} {l : List (List Nduv)} :
    ∀ e ∈ qIdxSpec i l, i ≤ e.1 := by
  induction l generalizing i with
  | nil => simp [qIdxSpec]
  | cons ps rest ih =>
    intro e he
    rw [qIdxSpec] at he
    by_cases hps : ps.isEmpty
    · rw [if_pos hps] at he
      exact Nat.le_of_succ_le (ih e he)
    · rw [if_neg hps] at he
      rcases List.mem_cons.mp he with h0 | hrest
      · subst h0; exact Nat.le_refl i
      · exact Nat.le_of_succ_le (ih e hrest)

theorem qIdxSpec_keys_nodup {i : Nat} {l : List (List Nduv)} :
    ((qIdxSpec i l).map Prod.fst).Nodup := by
  induction l generalizing i with
  | nil => simp [qIdxSpec]
  | cons ps rest ih =>
    rw [qIdxSpec]
    by_cases hps : ps.isEmpty
    · rw [if_pos hps]; exact ih
    · rw [if_neg hps, List.map_cons, List.nodup_cons]
      refine ⟨?_, ih⟩
      intro hmem
      obtain ⟨e, he, hfst⟩ := List.mem_map.mp hmem
      have := qIdxSpec_key_le e he
      omega

theorem qIdxSpec_eq_filterMap (i : Nat) (l : List (List Nduv)) :
    qIdxSpec i l = (List.range l.length).filterMap (fun j =>
      if (l.getD j []).isEmpty then none
      else some (i + j, resolveD (l.getD j []))) := by
  induction l generalizing i with
  | nil => simp [qIdxSpec]
  | cons ps rest ih =>
    rw [List.length_cons, List.range_succ_eq_map, List.filterMap_cons, List.filterMap_map]
    have hcomp : ((fun j =>
        if ((ps :: rest).getD j []).isEmpty then none
        else some (i + j, resolveD ((ps :: rest).getD j []))) ∘ Nat.succ) =
        (fun j => if (rest.getD j []).isEmpty then none
          else some ((i + 1) + j, resolveD (rest.getD j []))) := by
      funext j
      simp only [Function.comp_apply, List.getD_cons_succ]
      by_cases hj : (rest.getD j []).isEmpty
      · rw [if_pos hj, if_pos hj]
      · rw [if_neg hj, if_neg hj]
        have : i + Nat.succ j = (i + 1) + j := by omega
        rw [this]
    rw [hcomp, ← ih (i + 1), qIdxSpec]
    by_cases hps : ps.isEmpty
    · simp only [List.getD_cons_zero, if_pos hps]
    · simp only [List.getD_cons_zero, if_neg hps, Nat.add_zero]

/-! Gate-index lemmas -/

theorem buildGateIndex_ok_resolves {l : List GateProperties} {acc gi : GIdx}
    (h : buildGateIndex l acc = Except.ok gi) :
    ∀ g ∈ l, ∃ r, resolveProps g.parameters [] = Except.ok r := by
  induction l generalizing acc with
  | nil => simp
  | cons g rest ih =>
    rcases hr : resolveProps g.parameters [] with m | fp
    · rw [buildGateIndex, hr, except_bind_error] at h; cases h
    · rw [buildGateIndex, hr, except_bind_ok] at h
      intro g' hg'
      rcases List.mem_cons.mp hg' with he | hrest
      · subst he; exact ⟨fp, hr⟩
      · exact ih h g' hrest

theorem buildGateIndex_ok_of {l : List GateProperties} (acc : GIdx)
    (h : ∀ g ∈ l, ∃ r, resolveProps g.parameters [] = Except.ok r) :
    ∃ gi, buildGateIndex l acc = Except.ok gi := by
  induction l generalizing acc with
  | nil => exact ⟨acc, rfl⟩
  | cons g rest ih =>
    obtain ⟨fp, hfp⟩ := h g (by simp)
    obtain ⟨gi, hgi⟩ := ih
      (dinsert acc g.gate (dinsert ((dfind? acc g.gate).getD []) g.qubits fp))
      (fun g' hg' => h g' (by simp [hg']))
    exact ⟨gi, by rw [buildGateIndex, hfp, except_bind_ok, hgi]⟩

theorem buildGateIndex_error_mem {l : List GateProperties} {acc : GIdx} {m : String}
    (h : buildGateIndex l acc = Except.error m) :
    ∃ g ∈ l, resolveProps g.parameters [] = Except.error m := by
  induction l generalizing acc with
  | nil => cases h
  | cons g rest ih =>
    rcases hr : resolveProps g.parameters [] with m' | fp
    · rw [buildGateIndex, hr, except_bind_error] at h
      cases h
      exact ⟨g, by simp, hr⟩
    · rw [buildGateIndex, hr, except_bind_ok] at h
      obtain ⟨g', hg', hr'⟩ := ih h
      exact ⟨g', by simp [hg'], hr'⟩

/-- Last-write-wins characterization of the gate index. -/
theorem gateIndex_lookup {l : List GateProperties} {acc gi : GIdx}
    (h : buildGateIndex l acc = Except.ok gi) (G : String) (Q : List Nat) :
    dfind2 gi G Q =
      match lastMatch G Q l with
      | some g => (resolveProps g.parameters []).toOption
      | none => dfind2 acc G Q := by
  induction l generalizing acc with
  | nil => cases h; rfl
  | cons g rest ih =>
    rcases hr : resolveProps g.parameters [] with m | fp
    · rw [buildGateIndex, hr, except_bind_error] at h; cases h
    · rw [buildGateIndex, hr, except_bind_ok] at h
      have hih := ih h
      rcases hlast : lastMatch G Q rest with _ | g'
      · rw [hlast] at hih
        have hih2 : dfind2 gi G Q =
            dfind2 (dinsert acc g.gate
              (dinsert ((dfind? acc g.gate).getD []) g.qubits fp)) G Q := hih
        by_cases hkey : keyMatch G Q g
        · have hl2 : lastMatch G Q (g :: rest) = some g := by
            rw [lastMatch, hlast]; simp [hkey]
          rw [hl2]
          show dfind2 gi G Q = (resolveProps g.parameters []).toOption
          rw [hr, hih2]
          have hGate : g.gate = G := of_decide_eq_true (Bool.and_elim_left hkey)
          have hQ : g.qubits = Q := of_decide_eq_true (Bool.and_elim_right hkey)
          subst hGate
          subst hQ
          simp [dfind2, dfind?_dinsert]
          rfl
        · have hl2 : lastMatch G Q (g :: rest) = none := by
            rw [lastMatch, hlast]; simp [hkey]
          rw [hl2]
          show dfind2 gi G Q = dfind2 acc G Q
          rw [hih2]
          by_cases hGate : g.gate = G
          · have hQ : ¬g.qubits = Q := by
              intro hq
              exact hkey (by rw [keyMatch, decide_eq_true hGate, decide_eq_true hq]; rfl)
            subst hGate
            rcases hacc : dfind? acc g.gate with _ | bt <;>
              simp [dfind2, dfind?_dinsert, hQ, hacc, dfind?]
          · simp [dfind2, dfind?_dinsert, hGate]
      · rw [hlast] at hih
        have hih2 : dfind2 gi G Q = (resolveProps g'.parameters []).toOption := hih
        have hl2 : lastMatch G Q (g :: rest) = some g' := by
          rw [lastMatch, hlast]
        rw [hl2]
        exact hih2

theorem lastMatch_eq_none {l : List GateProperties} {G : String} {Q : List Nat}
    (h : ∀ g ∈ l, keyMatch G Q g = false) : lastMatch G Q l = none := by
  induction l with
  | nil => rfl
  | cons g rest ih =>
    rw [lastMatch, ih (fun g' hg' => h g' (by simp [hg'])), h g (by simp)]
    rfl

/-- With pairwise-distinct keys, the last match of a member is itself. -/
theorem lastMatch_of_mem_nodup {l : List GateProperties} {g : GateProperties}
    (hmem : g ∈ l)
    (hpair : l.Pairwise (fun a b => a.gate ≠ b.gate ∨ a.qubits ≠ b.qubits)) :
    lastMatch g.gate g.qubits l = some g := by
  induction l with
  | nil => simp at hmem
  | cons a rest ih =>
    rw [List.pairwise_cons] at hpair
    rcases List.mem_cons.mp hmem with he | hrest
    · subst he
      have hnone : lastMatch g.gate g.qubits rest = none := by
        apply lastMatch_eq_none
        intro r hr
        rcases hpair.1 r hr with hg | hq
        · have hg' : r.gate ≠ g.gate := fun h2 => hg h2.symm
          simp [keyMatch, hg']
        · have hq' : r.qubits ≠ g.qubits := fun h2 => hq h2.symm
          simp [keyMatch, hq']
      rw [lastMatch, hnone]
      simp [keyMatch]
    · rw [lastMatch, ih hrest hpair.2]

theorem lastMatch_append (G : String) (Q : List Nat) (a b : List GateProperties) :
    lastMatch G Q (a ++ b) =
      match lastMatch G Q b with
      | some g => some g
      | none => lastMatch G Q a := by
  induction a with
  | nil =>
    simp only [List.nil_append]
    rcases h : lastMatch G Q b with _ | g <;> simp [h, lastMatch]
  | cons g rest ih =>
    rw [List.cons_append, lastMatch, ih, lastMatch]
    rcases lastMatch G Q b with _ | gb
    · rfl
    · rfl

/-- Inversion of a successful construction. -/
theorem mkProps_ok_inv {bn bv : String} {lud : DateInput} {qubits : List (List Nduv)}
    {gates : List GateProperties} {general : List Nduv}
    {kwargs : List (String × Plain)} {S : AerBackendProperties}
    (h : mkProps bn bv lud qubits gates general kwargs = Except.ok S) :
    ((kwargs.map Prod.fst).Nodup ∧ ∀ k ∈ kwargs.map Prod.fst, k ∉ coreKeys) ∧
    ∃ qi gi, buildQubitIndexAux 0 qubits = Except.ok qi ∧
      buildGateIndex gates [] = Except.ok gi ∧
      S = ⟨bn, bv, lud.toStamp, qubits, gates, general, qi, gi, kwargs⟩ := by
  rw [mkProps] at h
  split at h
  case isFalse => cases h
  case isTrue hc =>
    rcases hq : buildQubitIndexAux 0 qubits with m | qi
    · rw [hq, except_bind_error] at h; cases h
    · rw [hq, except_bind_ok] at h
      rcases hg : buildGateIndex gates [] with m | gi
      · rw [hg, except_bind_error] at h; cases h
      · rw [hg, except_bind_ok] at h
        have hS : (⟨bn, bv, lud.toStamp, qubits, gates, general, qi, gi, kwargs⟩ :
            AerBackendProperties) = S := (Except.ok.injEq _ _).mp h
        exact ⟨hc, qi, gi, rfl, rfl, hS.symm⟩

/-! ## Serialization round-trip lemmas -/

theorem nduv_roundtrip (x : Nduv) : Nduv.from_dict (Nduv.to_dict x) = some x := by
  simp [Nduv.from_dict, Nduv.to_dict, dfind?]

theorem parseList_map {α : Type} {f : Plain → Option α} {g : α → Plain} {l : List α}
    (h : ∀ x ∈ l, f (g x) = some x) : parseList f (l.map g) = some l := by
  induction l with
  | nil => rfl
  | cons x rest ih =>
    rw [List.map_cons, parseList, h x (by simp), ih (fun y hy => h y (by simp [hy]))]

theorem gp_roundtrip {g : GateProperties} (h : g.wfBag) :
    GateProperties.from_dict (GateProperties.to_dict g) = some g := by
  have hdis : ∀ k ∈ g.data.map Prod.fst,
      k ∉ ([("qubits", Plain.list (g.qubits.map Plain.int)),
            ("gate", Plain.str g.gate),
            ("parameters", Plain.list (g.parameters.map Nduv.to_dict))] :
        List (String × Plain)).map Prod.fst := by
    intro k hk
    simpa [gpCoreKeys] using h.2 k hk
  have hupd := dupdate_eq_append _ g.data h.1 hdis
  rw [GateProperties.to_dict, hupd]
  have h1 : dfind? ([("qubits", Plain.list (g.qubits.map Plain.int)),
      ("gate", Plain.str g.gate),
      ("parameters", Plain.list (g.parameters.map Nduv.to_dict))] ++ g.data) "qubits" =
      some (Plain.list (g.qubits.map Plain.int)) :=
    dfind?_append_left _ (by simp [dfind?])
  have h2 : dfind? ([("qubits", Plain.list (g.qubits.map Plain.int)),
      ("gate", Plain.str g.gate),
      ("parameters", Plain.list (g.parameters.map Nduv.to_dict))] ++ g.data) "gate" =
      some (Plain.str g.gate) :=
    dfind?_append_left _ (by simp [dfind?])
  have h3 : dfind? ([("qubits", Plain.list (g.qubits.map Plain.int)),
      ("gate", Plain.str g.gate),
      ("parameters", Plain.list (g.parameters.map Nduv.to_dict))] ++ g.data) "parameters" =
      some (Plain.list (g.parameters.map Nduv.to_dict)) :=
    dfind?_append_left _ (by simp [dfind?])
  have hq : parseList parseInt (g.qubits.map Plain.int) = some g.qubits :=
    parseList_map (fun x _ => rfl)
  have hp : parseList Nduv.from_dict (g.parameters.map Nduv.to_dict) = some g.parameters :=
    parseList_map (fun x _ => nduv_roundtrip x)
  have hfil : (([("qubits", Plain.list (g.qubits.map Plain.int)),
      ("gate", Plain.str g.gate),
      ("parameters", Plain.list (g.parameters.map Nduv.to_dict))] ++ g.data).filter
        (fun e => decide (e.1 ∉ gpCoreKeys))) = g.data := by
    rw [List.filter_append]
    have hbase : (([("qubits", Plain.list (g.qubits.map Plain.int)),
        ("gate", Plain.str g.gate),
        ("parameters", Plain.list (g.parameters.map Nduv.to_dict))] :
          List (String × Plain)).filter (fun e => decide (e.1 ∉ gpCoreKeys))) = [] := by
      simp [gpCoreKeys]
    have hdata : g.data.filter (fun e => decide (e.1 ∉ gpCoreKeys)) = g.data := by
      apply List.filter_eq_self.mpr
      intro e he
      simpa using h.2 e.1 (List.mem_map_of_mem Prod.fst he)
    rw [hbase, hdata, List.nil_append]
  simp only [GateProperties.from_dict, h1, h2, h3, hq, hp, hfil]

/-! ## faulty_qubits lemmas -/

theorem faultyAux_eq {S : AerBackendProperties} {sub : QIdx}
    (h : ∀ e ∈ sub, dfind? S.qubitIndex e.1 = some e.2) :
    faultyAux S sub =
      Except.ok (sub.filterMap (fun e => if opFlag e.2 then none else some e.1)) := by
  induction sub with
  | nil => rfl
  | cons e rest ih =>
    obtain ⟨q, p⟩ := e
    have hq := h (q, p) (by simp)
    have hop : S.is_qubit_operational q = Except.ok (opFlag p) := by
      simp [AerBackendProperties.is_qubit_operational, AerBackendProperties.qubit_property, hq]
    rw [faultyAux, hop, except_bind_ok, ih (fun e he => h e (by simp [he])), except_bind_ok]
    by_cases hflag : opFlag p
    · simp [hflag, List.filterMap_cons]
    · simp [hflag, List.filterMap_cons]

/-! ## Evaluation of the sample data -/

theorem wProps_eval :
    wProps = [("gate_error", (1 / 100, wTime)), ("operational", (0, wTime))] := by
  simp [wProps, resolveD, resolveProps, applyPrefixChecked, toBaseUnit, prefixFactor,
    dinsert, wErrNd, wOpNd]

theorem wQubitProps_eval : resolveD [wT1] = [("T1", (1 / 10000, wTime))] := by
  simp [resolveD, resolveProps, applyPrefixChecked, toBaseUnit, prefixFactor,
    dinsert, wT1]
  norm_num

/-! ## Claim theorems -/

/-- C4: for every gate with a specific qubit tuple present in the gate index,
and every qubit present in the qubit index, `is_gate_operational` and
`is_qubit_operational` return `True` when no property named `"operational"`
was recorded for that entry, and return the boolean cast of the resolved
`"operational"` value when it was recorded. -/
theorem operational_default :
    (∀ (S : AerBackendProperties) (gate : String) (Q : List Nat) (props : PropMap),
      dfind2 S.gateIndex gate Q = some props →
      S.is_gate_operational gate (some (PyQubits.seq Q)) =
        Except.ok (match dfind? props "operational" with
          | some vd => decide (vd.1 ≠ 0)
          | none => true)) ∧
    (∀ (S : AerBackendProperties) (q : Nat) (props : PropMap),
      dfind? S.qubitIndex q = some props →
      S.is_qubit_operational q =
        Except.ok (match dfind? props "operational" with
          | some vd => decide (vd.1 ≠ 0)
          | none => true)) := by
  constructor
  · intro S gate Q props h
    rcases hbt : dfind? S.gateIndex gate with _ | bt
    · unfold dfind2 at h
      rw [hbt] at h
      exact Option.noConfusion h
    · have hq : dfind? bt Q = some props := by
        unfold dfind2 at h
        rw [hbt] at h
        exact h
      simp [AerBackendProperties.is_gate_operational, AerBackendProperties.gate_property,
        hbt, PyQubits.toTuple, hq, strTruthy, opFlag]
  · intro S q props h
    simp [AerBackendProperties.is_qubit_operational, AerBackendProperties.qubit_property,
      h, opFlag]

/-- Witness for C4: in the sample snapshot, the gate `"cx"` on `(0, 1)`
records `operational = 0` and is reported non-operational, while qubit `0`
records no `"operational"` property and defaults to operational. -/
theorem operational_default_witness :
    wSnap.is_gate_operational "cx" (some (PyQubits.seq [0, 1])) = Except.ok false ∧
    wSnap.is_qubit_operational 0 = Except.ok true := by
  constructor
  · rw [operational_default.1 wSnap "cx" [0, 1] wProps rfl, wProps_eval]
    simp [dfind?]
  · rw [operational_default.2 wSnap 0 (resolveD [wT1]) rfl, wQubitProps_eval]
    simp [dfind?]

/-- C9: for every gate name present in the gate index, calling
`is_gate_operational` with `qubits = None` returns `True`, whatever
`"operational"` values the gate's qubit tuples record: the membership test
compares the string `"operational"` against qubit-tuple keys. -/
theorem gate_operational_no_qubits_true :
    ∀ (S : AerBackendProperties) (gate : String) (bt : List (List Nat × PropMap)),
      dfind? S.gateIndex gate = some bt →
      S.is_gate_operational gate none = Except.ok true := by
  intro S gate bt h
  simp [AerBackendProperties.is_gate_operational, AerBackendProperties.gate_property,
    h, strTruthy]

/-- Witness for C9: the sample gate `"cx"` records `operational = 0` on its
only qubit tuple, yet `is_gate_operational` without qubits returns `True`. -/
theorem gate_operational_no_qubits_true_witness :
    wSnap.is_gate_operational "cx" none = Except.ok true ∧
    dfind? wProps "operational" = some (0, wTime) :=
  ⟨gate_operational_no_qubits_true wSnap "cx" wByTuple rfl,
   by rw [wProps_eval]; simp [dfind?]⟩

/-- C8: calling `gate_property` with a non-empty `name` but `qubits = None`
always raises a `ValueError`; when the gate exists in the index it is
specifically the "provide qubits" error (when the gate is absent, the
lookup `ValueError` is raised first). -/
theorem name_without_qubits_error :
    ∀ (S : AerBackendProperties) (gate n : String), n ≠ "" →
      (∃ m, S.gate_property gate none (some n) = Except.error m) ∧
      ((dfind? S.gateIndex gate).isSome →
        S.gate_property gate none (some n) =
          Except.error ("Provide qubits to get " ++ n ++ " of " ++ gate)) := by
  intro S gate n hn
  rcases hbt : dfind? S.gateIndex gate with _ | bt
  · refine ⟨⟨"Could not find the desired property for " ++ gate, ?_⟩, ?_⟩
    · simp [AerBackendProperties.gate_property, hbt]
    · intro hs
      simp [hbt] at hs
  · refine ⟨⟨"Provide qubits to get " ++ n ++ " of " ++ gate, ?_⟩, fun _ => ?_⟩ <;>
      simp [AerBackendProperties.gate_property, hbt, strTruthy, hn]

/-- Witness for C8: the sample gate `"cx"` exists, and asking for its
`"gate_error"` without qubits raises the "provide qubits" error. -/
theorem name_without_qubits_error_witness :
    wSnap.gate_property "cx" none (some "gate_error") =
      Except.error "Provide qubits to get gate_error of cx" :=
  (name_without_qubits_error wSnap "cx" "gate_error" (by decide)).2 (by rfl)

/-- Counterexample to C2 as stated: in `wSnapE` the triple
`("rz", (0,), "")` is recorded — the gate's single NDV is named `""` — yet
`gate_property` neither returns that record's resolved (value, timestamp)
pair nor raises: `if name:` is false for the empty string, so narrowing is
skipped and the whole property dict for the tuple is returned. -/
theorem gate_property_empty_name_cex :
    mkProps "aer" "1" DateInput.nul [] [wGateE] [] [] = Except.ok wSnapE ∧
    wEmptyNd ∈ wGateE.parameters ∧
    wEmptyNd.name = "" ∧
    resolveD [wEmptyNd] = [("", (1, wTime))] ∧
    wSnapE.gate_property "rz" (some (PyQubits.seq [0])) (some "") =
      Except.ok (GPResult.props (resolveD [wEmptyNd])) ∧
    wSnapE.gate_property "rz" (some (PyQubits.seq [0])) (some "") ≠
      Except.ok (GPResult.single (1, wTime)) := by
  refine ⟨rfl, by simp [wGateE], rfl, ?_, rfl, ?_⟩
  · simp [resolveD, resolveProps, applyPrefixChecked, toBaseUnit, prefixFactor,
      dinsert, wEmptyNd]
  · intro h
    have h2 := (Except.ok.injEq _ _).mp h
    cases h2

/-- C2 (amended): for every recorded (gate, qubit-tuple, name) triple whose
property name is non-empty, `gate_property` — with a single int treated as a
1-tuple — returns exactly the unit-resolved (value, timestamp) pair of that
record's NDV; for every absent gate, tuple, or non-empty absent name it
raises the lookup `ValueError`.  (An empty-string `name` argument is falsy
in Python and behaves as if no name was given.) -/
theorem gate_property_lookup :
    (∀ (bn bv : String) (lud : DateInput) (qubits : List (List Nduv))
       (gates : List GateProperties) (general : List Nduv)
       (kwargs : List (String × Plain)) (S : AerBackendProperties)
       (g : GateProperties) (nd : Nduv),
      mkProps bn bv lud qubits gates general kwargs = Except.ok S →
      gates.Pairwise (fun a b => a.gate ≠ b.gate ∨ a.qubits ≠ b.qubits) →
      g ∈ gates → (g.parameters.map Nduv.name).Nodup → nd ∈ g.parameters →
      nd.name ≠ "" →
      ∃ v, toBaseUnit nd.value nd.unit = some v ∧
        S.gate_property g.gate (some (PyQubits.seq g.qubits)) (some nd.name) =
          Except.ok (GPResult.single (v, nd.date))) ∧
    (∀ (S : AerBackendProperties) (gate : String) (Q : List Nat) (n : String),
      n ≠ "" → lookup3 S.gateIndex gate Q n = none →
      S.gate_property gate (some (PyQubits.seq Q)) (some n) =
        Except.error ("Could not find the desired property for " ++ gate)) ∧
    (∀ (S : AerBackendProperties) (gate : String) (k : Nat) (name : Option String),
      S.gate_property gate (some (PyQubits.int k)) name =
        S.gate_property gate (some (PyQubits.seq [k])) name) := by
  refine ⟨?_, ?_, ?_⟩
  · intro bn bv lud qubits gates general kwargs S g nd hS hpair hg hnames hnd hn
    obtain ⟨-, qi, gi, hqi, hgi, hSlit⟩ := mkProps_ok_inv hS
    subst hSlit
    obtain ⟨fp, hfp⟩ := buildGateIndex_ok_resolves hgi g hg
    have hlook : dfind2 gi g.gate g.qubits = some fp := by
      rw [gateIndex_lookup hgi, lastMatch_of_mem_nodup hg hpair]
      show (resolveProps g.parameters []).toOption = some fp
      rw [hfp]
      rfl
    obtain ⟨v, hv, hfind⟩ := resolveProps_find hfp hnd hnames
    refine ⟨v, hv, ?_⟩
    rcases hbt : dfind? gi g.gate with _ | bt
    · unfold dfind2 at hlook
      rw [hbt] at hlook
      exact Option.noConfusion hlook
    · have hq2 : dfind? bt g.qubits = some fp := by
        unfold dfind2 at hlook
        rw [hbt] at hlook
        exact hlook
      simp [AerBackendProperties.gate_property, hbt, PyQubits.toTuple, hq2,
        strTruthy, hn, hfind]
  · intro S gate Q n hn habs
    rcases hbt : dfind? S.gateIndex gate with _ | bt
    · simp [AerBackendProperties.gate_property, hbt]
    · rcases hq : dfind? bt Q with _ | props
      · simp [AerBackendProperties.gate_property, hbt, PyQubits.toTuple, hq]
      · rcases hname : dfind? props n with _ | vd
        · simp [AerBackendProperties.gate_property, hbt, PyQubits.toTuple, hq,
            strTruthy, hn, hname]
        · exfalso
          have hsome : lookup3 S.gateIndex gate Q n = some vd := by
            unfold lookup3 dfind2
            rw [hbt]
            show (match dfind? bt Q with
              | none => none
              | some props => dfind? props n) = some vd
            rw [hq]
            exact hname
          rw [habs] at hsome
          exact Option.noConfusion hsome
  · intro S gate k name
    rfl

/-- Witness for C2 (amended): the recorded `"gate_error"` of `"cx"` on
`(0, 1)` is returned resolved; an absent name raises; a single int behaves
as its 1-tuple. -/
theorem gate_property_lookup_witness :
    wSnap.gate_property "cx" (some (PyQubits.seq [0, 1])) (some "gate_error") =
      Except.ok (GPResult.single (1 / 100, wTime)) ∧
    wSnap.gate_property "cx" (some (PyQubits.seq [0, 1])) (some "T9") =
      Except.error "Could not find the desired property for cx" ∧
    wSnap.gate_property "cx" (some (PyQubits.int 0)) (some "gate_error") =
      wSnap.gate_property "cx" (some (PyQubits.seq [0])) (some "gate_error") := by
  refine ⟨?_, ?_, ?_⟩
  · obtain ⟨v, hv, hres⟩ := gate_property_lookup.1 "aer" "1"
      (DateInput.str "2024-05-01") [[wT1], [wOpNd], []] [wGate] [] [] wSnap wGate wErrNd
      rfl (by simp) (by simp) (by decide) (by simp [wGate]) (by decide)
    have hv2 : toBaseUnit wErrNd.value wErrNd.unit = some (1 / 100) := by
      simp [toBaseUnit, prefixFactor, wErrNd]
    rw [hv2] at hv
    cases hv
    exact hres
  · exact gate_property_lookup.2.1 wSnap "cx" [0, 1] "T9" (by decide) rfl
  · exact gate_property_lookup.2.2 wSnap "cx" 0 (some "gate_error")

theorem keyMatch_false {G : String} {Q : List Nat} {g : GateProperties}
    (h : ¬(g.gate = G ∧ g.qubits = Q)) : keyMatch G Q g = false := by
  rw [keyMatch]
  by_cases h1 : g.gate = G
  · by_cases h2 : g.qubits = Q
    · exact absurd ⟨h1, h2⟩ h
    · simp [h2]
  · simp [h1]

theorem qIdxSpec_filterMap_faulty (qubits : List (List Nduv)) :
    (qIdxSpec 0 qubits).filterMap (fun e => if opFlag e.2 then none else some e.1) =
      faultySpecList qubits := by
  rw [qIdxSpec_eq_filterMap, List.filterMap_filterMap, faultySpecList]
  apply List.filterMap_congr
  intro j hj
  rcases hl : qubits.getD j [] with _ | ⟨x, xs⟩
  · simp
  · by_cases hop : opFlag (resolveD (x :: xs))
    · simp [hop]
    · simp [hop]

/-- C7: `faulty_qubits` returns exactly the indexed qubits whose resolved
`"operational"` value is recorded and zero; a qubit whose input NDV list is
empty is absent from the qubit index and can never appear in the result. -/
theorem faulty_qubits_skip_unindexed :
    ∀ (bn bv : String) (lud : DateInput) (qubits : List (List Nduv))
      (gates : List GateProperties) (general : List Nduv)
      (kwargs : List (String × Plain)) (S : AerBackendProperties),
      mkProps bn bv lud qubits gates general kwargs = Except.ok S →
      S.faulty_qubits = Except.ok (faultySpecList qubits) ∧
      ∀ i, qubits.getD i [] = [] → i ∉ faultySpecList qubits := by
  intro bn bv lud qubits gates general kwargs S hS
  obtain ⟨-, qi, gi, hqi, hgi, hSlit⟩ := mkProps_ok_inv hS
  subst hSlit
  have hspec : qi = qIdxSpec 0 qubits := buildQubitIndexAux_ok hqi
  subst hspec
  constructor
  · have hfind : ∀ e ∈ qIdxSpec 0 qubits,
        dfind? (qIdxSpec 0 qubits) e.1 = some e.2 := by
      intro e he
      exact dfind?_of_mem_nodup he qIdxSpec_keys_nodup
    have h1 := faultyAux_eq
      (S := ⟨bn, bv, lud.toStamp, qubits, gates, general, qIdxSpec 0 qubits, gi, kwargs⟩)
      hfind
    show faultyAux _ (qIdxSpec 0 qubits) = _
    rw [h1, qIdxSpec_filterMap_faulty]
  · intro i hempty hmem
    simp only [faultySpecList, List.mem_filterMap] at hmem
    obtain ⟨j, hj, hfj⟩ := hmem
    rcases hl : qubits.getD j [] with _ | ⟨x, xs⟩
    · rw [hl] at hfj
      simp at hfj
    · rw [hl] at hfj
      by_cases hop : opFlag (resolveD (x :: xs))
      · simp [hop] at hfj
      · simp [hop] at hfj
        subst hfj
        rw [hempty] at hl
        cases hl

/-- Witness for C7: in the sample snapshot qubit 1 (operational = 0) is the
only faulty qubit; qubit 2, whose property list is empty, is invisible. -/
theorem faulty_qubits_skip_unindexed_witness :
    wSnap.faulty_qubits = Except.ok [1] ∧
    2 ∉ faultySpecList [[wT1], [wOpNd], []] := by
  obtain ⟨h1, h2⟩ := faulty_qubits_skip_unindexed "aer" "1" (DateInput.str "2024-05-01")
    [[wT1], [wOpNd], []] [wGate] [] [] wSnap rfl
  refine ⟨?_, h2 2 rfl⟩
  rw [h1]
  have heval : faultySpecList [[wT1], [wOpNd], []] = [1] := by
    simp [faultySpecList, resolveD, resolveProps, applyPrefixChecked, toBaseUnit,
      prefixFactor, dinsert, opFlag, dfind?, wT1, wOpNd, List.range_succ]
  rw [heval]

/-- C3: if any NDV in the qubits or gates lists carries a unit the resolver
does not recognize, construction fails with a `ValueError` naming the
offending unit string, and no snapshot is produced. -/
theorem construction_unknown_unit_error :
    ∀ (bn bv : String) (lud : DateInput) (qubits : List (List Nduv))
      (gates : List GateProperties) (general : List Nduv)
      (kwargs : List (String × Plain)) (nd : Nduv),
      ((kwargs.map Prod.fst).Nodup ∧ ∀ k ∈ kwargs.map Prod.fst, k ∉ coreKeys) →
      nd ∈ qubits.flatten ++ gates.flatMap GateProperties.parameters →
      toBaseUnit nd.value nd.unit = none →
      ∃ bad ∈ qubits.flatten ++ gates.flatMap GateProperties.parameters,
        toBaseUnit bad.value bad.unit = none ∧
        mkProps bn bv lud qubits gates general kwargs =
          Except.error ("Could not understand units: " ++ bad.unit) := by
  intro bn bv lud qubits gates general kwargs nd hkw hmem hfail
  rw [mkProps, if_pos hkw]
  rcases hq : buildQubitIndexAux 0 qubits with m | qi
  · obtain ⟨bad, hbad, hbfail, hm⟩ := buildQubitIndexAux_error_mem hq
    refine ⟨bad, List.mem_append.mpr (Or.inl hbad), hbfail, ?_⟩
    rw [except_bind_error, hm]
  · rcases hg : buildGateIndex gates [] with m | gi
    · obtain ⟨g, hgmem, hr⟩ := buildGateIndex_error_mem hg
      obtain ⟨bad, hbad, hbfail, hm⟩ := resolveProps_error_mem hr
      refine ⟨bad, List.mem_append.mpr (Or.inr ?_), hbfail, ?_⟩
      · exact List.mem_flatMap.mpr ⟨g, hgmem, hbad⟩
      · rw [except_bind_ok, except_bind_error, hm]
    · exfalso
      rcases List.mem_append.mp hmem with hq2 | hg2
      · have hres := buildQubitIndexAux_ok_resolves hq nd hq2
        rw [hfail] at hres
        cases hres
      · obtain ⟨g, hgmem, hnd⟩ := List.mem_flatMap.mp hg2
        obtain ⟨r, hr⟩ := buildGateIndex_ok_resolves hg g hgmem
        have hres := resolveProps_ok_resolves hr nd hnd
        rw [hfail] at hres
        cases hres

/-- Witness for C3: a qubit NDV with unit `"xyz"` aborts construction with
the `ValueError` naming `xyz`. -/
theorem construction_unknown_unit_error_witness :
    mkProps "a" "1" DateInput.nul [[wBadNd]] [] [] [] =
      Except.error "Could not understand units: xyz" := by
  obtain ⟨bad, hmem, hfail, herr⟩ := construction_unknown_unit_error "a" "1"
    DateInput.nul [[wBadNd]] [] [] [] wBadNd (by simp) (by simp) rfl
  simp at hmem
  subst hmem
  exact herr

/-- C10: two records with the same gate name and qubit tuple do not make
construction fail; the flat `gates` list keeps both, and the gate index
entry for that key holds the resolved parameters of the record appearing
later in the list. -/
theorem duplicate_gate_last_write_wins :
    ∀ (bn bv : String) (lud : DateInput) (qubits : List (List Nduv))
      (general : List Nduv) (kwargs : List (String × Plain))
      (l1 l2 l3 : List GateProperties) (g1 g2 : GateProperties),
      g1.gate = g2.gate → g1.qubits = g2.qubits →
      (∀ g ∈ l3, ¬(g.gate = g2.gate ∧ g.qubits = g2.qubits)) →
      (∀ nd ∈ qubits.flatten, (toBaseUnit nd.value nd.unit).isSome) →
      (∀ g ∈ l1 ++ g1 :: l2 ++ g2 :: l3, ∀ nd ∈ g.parameters,
        (toBaseUnit nd.value nd.unit).isSome) →
      ((kwargs.map Prod.fst).Nodup ∧ ∀ k ∈ kwargs.map Prod.fst, k ∉ coreKeys) →
      ∃ S fp,
        mkProps bn bv lud qubits (l1 ++ g1 :: l2 ++ g2 :: l3) general kwargs =
          Except.ok S ∧
        resolveProps g2.parameters [] = Except.ok fp ∧
        dfind2 S.gateIndex g2.gate g2.qubits = some fp ∧
        S.gates = l1 ++ g1 :: l2 ++ g2 :: l3 := by
  intro bn bv lud qubits general kwargs l1 l2 l3 g1 g2 hga hqa hl3 hqres hgres hkw
  have hrescoll : ∀ g ∈ l1 ++ g1 :: l2 ++ g2 :: l3,
      ∃ r, resolveProps g.parameters [] = Except.ok r :=
    fun g hg => resolveProps_ok_of [] (hgres g hg)
  obtain ⟨gi, hgi⟩ := buildGateIndex_ok_of [] hrescoll
  obtain ⟨fp, hfp⟩ := hrescoll g2 (by simp)
  have hmk : mkProps bn bv lud qubits (l1 ++ g1 :: l2 ++ g2 :: l3) general kwargs =
      Except.ok ⟨bn, bv, lud.toStamp, qubits, l1 ++ g1 :: l2 ++ g2 :: l3, general,
        qIdxSpec 0 qubits, gi, kwargs⟩ := by
    rw [mkProps, if_pos hkw, buildQubitIndexAux_eq_spec 0 hqres, except_bind_ok,
      hgi, except_bind_ok]
  refine ⟨_, fp, hmk, hfp, ?_, rfl⟩
  have hl3none : lastMatch g2.gate g2.qubits l3 = none :=
    lastMatch_eq_none (fun g hg => keyMatch_false (hl3 g hg))
  have h1 : lastMatch g2.gate g2.qubits (g2 :: l3) = some g2 := by
    rw [lastMatch, hl3none]
    simp [keyMatch]
  have h4 : lastMatch g2.gate g2.qubits (l1 ++ g1 :: l2 ++ g2 :: l3) = some g2 := by
    rw [lastMatch_append, lastMatch_append, h1]
  show dfind2 gi g2.gate g2.qubits = some fp
  rw [gateIndex_lookup hgi, h4]
  show (resolveProps g2.parameters []).toOption = some fp
  rw [hfp]
  rfl

/-- Witness for C10: two `"x"` records on qubit `(0,)`; construction
succeeds, both stay in `gates`, and the index holds the second record's
resolved `gate_error = 1/5`. -/
theorem duplicate_gate_last_write_wins_witness :
    mkProps "a" "1" DateInput.nul [] [wDupA, wDupB] [] [] = Except.ok wSnapD ∧
    dfind2 wSnapD.gateIndex "x" [0] = some [("gate_error", (1 / 5, wTime))] ∧
    wSnapD.gates = [wDupA, wDupB] := by
  obtain ⟨S, fp, hok, hres, hlook, hgates⟩ := duplicate_gate_last_write_wins "a" "1"
    DateInput.nul [] [] [] [] [] [] wDupA wDupB rfl rfl (by simp) (by simp)
    (by decide) (by simp)
  have hok' : mkProps "a" "1" DateInput.nul [] [wDupA, wDupB] [] [] = Except.ok S := hok
  have hS : wSnapD = S := by
    unfold wSnapD getOk
    rw [hok']
  have hlit : resolveProps wDupB.parameters [] =
      Except.ok [("gate_error", (1 / 5, wTime))] := by
    simp [resolveProps, applyPrefixChecked, toBaseUnit, prefixFactor, dinsert, wDupB]
  have hfp : fp = [("gate_error", (1 / 5, wTime))] := by
    rw [hlit] at hres
    exact ((Except.ok.injEq _ _).mp hres).symm
  refine ⟨by rw [hS]; exact hok', ?_, by rw [hS]; exact hgates⟩
  rw [hS, ← hfp]
  exact hlook

/-- C1: deserializing the serialized form of a validly constructed snapshot
yields it back: `from_dict (S.to_dict) = S` (hence equality under the
`to_dict` comparison used by `__eq__`), and when the snapshot was
constructed from an ISO-8601 string its `last_update_date` is the parsed
timestamp, so the string round-trips as a timestamp. -/
theorem roundtrip_from_dict_to_dict :
    ∀ (bn bv : String) (lud : DateInput) (qubits : List (List Nduv))
      (gates : List GateProperties) (general : List Nduv)
      (kwargs : List (String × Plain)) (S : AerBackendProperties),
      mkProps bn bv lud qubits gates general kwargs = Except.ok S →
      (∀ g ∈ gates, g.wfBag) →
      AerBackendProperties.from_dict S.to_dict = Except.ok S ∧
      (∀ s, lud = DateInput.str s → S.last_update_date = some (isoparse s)) := by
  intro bn bv lud qubits gates general kwargs S hS hwf
  obtain ⟨⟨hnd, hdis⟩, qi, gi, hqi, hgi, hSlit⟩ := mkProps_ok_inv hS
  subst hSlit
  refine ⟨?_, ?_⟩
  case refine_2 =>
    intro s hs
    subst hs
    rfl
  case refine_1 =>
  have hdis6 : ∀ k ∈ kwargs.map Prod.fst,
      k ∉ (([("backend_name", Plain.str bn),
        ("backend_version", Plain.str bv),
        ("last_update_date", plainOfDate lud.toStamp),
        ("qubits", Plain.list (qubits.map (fun ps => Plain.list (ps.map Nduv.to_dict)))),
        ("gates", Plain.list (gates.map GateProperties.to_dict)),
        ("general", Plain.list (general.map Nduv.to_dict))] :
          List (String × Plain)).map Prod.fst) := by
    intro k hk
    simpa [coreKeys] using hdis k hk
  have hupd := dupdate_eq_append _ kwargs hnd hdis6
  have htd : AerBackendProperties.to_dict
      ⟨bn, bv, lud.toStamp, qubits, gates, general, qi, gi, kwargs⟩ =
      Plain.dict ([("backend_name", Plain.str bn),
        ("backend_version", Plain.str bv),
        ("last_update_date", plainOfDate lud.toStamp),
        ("qubits", Plain.list (qubits.map (fun ps => Plain.list (ps.map Nduv.to_dict)))),
        ("gates", Plain.list (gates.map GateProperties.to_dict)),
        ("general", Plain.list (general.map Nduv.to_dict))] ++ kwargs) := by
    rw [AerBackendProperties.to_dict]
    rw [hupd]
  rw [htd]
  have f1 : dfind? ([("backend_name", Plain.str bn),
      ("backend_version", Plain.str bv),
      ("last_update_date", plainOfDate lud.toStamp),
      ("qubits", Plain.list (qubits.map (fun ps => Plain.list (ps.map Nduv.to_dict)))),
      ("gates", Plain.list (gates.map GateProperties.to_dict)),
      ("general", Plain.list (general.map Nduv.to_dict))] ++ kwargs) "backend_name" =
      some (Plain.str bn) :=
    dfind?_append_left _ (by simp [dfind?])
  have f2 : dfind? ([("backend_name", Plain.str bn),
      ("backend_version", Plain.str bv),
      ("last_update_date", plainOfDate lud.toStamp),
      ("qubits", Plain.list (qubits.map (fun ps => Plain.list (ps.map Nduv.to_dict)))),
      ("gates", Plain.list (gates.map GateProperties.to_dict)),
      ("general", Plain.list (general.map Nduv.to_dict))] ++ kwargs) "backend_version" =
      some (Plain.str bv) :=
    dfind?_append_left _ (by simp [dfind?])
  have f3 : dfind? ([("backend_name", Plain.str bn),
      ("backend_version", Plain.str bv),
      ("last_update_date", plainOfDate lud.toStamp),
      ("qubits", Plain.list (qubits.map (fun ps => Plain.list (ps.map Nduv.to_dict)))),
      ("gates", Plain.list (gates.map GateProperties.to_dict)),
      ("general", Plain.list (general.map Nduv.to_dict))] ++ kwargs) "last_update_date" =
      some (plainOfDate lud.toStamp) :=
    dfind?_append_left _ (by simp [dfind?])
  have f4 : dfind? ([("backend_name", Plain.str bn),
      ("backend_version", Plain.str bv),
      ("last_update_date", plainOfDate lud.toStamp),
      ("qubits", Plain.list (qubits.map (fun ps => Plain.list (ps.map Nduv.to_dict)))),
      ("gates", Plain.list (gates.map GateProperties.to_dict)),
      ("general", Plain.list (general.map Nduv.to_dict))] ++ kwargs) "qubits" =
      some (Plain.list (qubits.map (fun ps => Plain.list (ps.map Nduv.to_dict)))) :=
    dfind?_append_left _ (by simp [dfind?])
  have f5 : dfind? ([("backend_name", Plain.str bn),
      ("backend_version", Plain.str bv),
      ("last_update_date", plainOfDate lud.toStamp),
      ("qubits", Plain.list (qubits.map (fun ps => Plain.list (ps.map Nduv.to_dict)))),
      ("gates", Plain.list (gates.map GateProperties.to_dict)),
      ("general", Plain.list (general.map Nduv.to_dict))] ++ kwargs) "gates" =
      some (Plain.list (gates.map GateProperties.to_dict)) :=
    dfind?_append_left _ (by simp [dfind?])
  have f6 : dfind? ([("backend_name", Plain.str bn),
      ("backend_version", Plain.str bv),
      ("last_update_date", plainOfDate lud.toStamp),
      ("qubits", Plain.list (qubits.map (fun ps => Plain.list (ps.map Nduv.to_dict)))),
      ("gates", Plain.list (gates.map GateProperties.to_dict)),
      ("general", Plain.list (general.map Nduv.to_dict))] ++ kwargs) "general" =
      some (Plain.list (general.map Nduv.to_dict)) :=
    dfind?_append_left _ (by simp [dfind?])
  have fq : parseList parseQubitEntry
      (qubits.map (fun ps => Plain.list (ps.map Nduv.to_dict))) = some qubits :=
    parseList_map (fun ps _ => by
      rw [parseQubitEntry]
      exact parseList_map (fun x _ => nduv_roundtrip x))
  have fg : parseList GateProperties.from_dict
      (gates.map GateProperties.to_dict) = some gates :=
    parseList_map (fun g hg => gp_roundtrip (hwf g hg))
  have fgen : parseList Nduv.from_dict (general.map Nduv.to_dict) = some general :=
    parseList_map (fun x _ => nduv_roundtrip x)
  have ffil : (([("backend_name", Plain.str bn),
      ("backend_version", Plain.str bv),
      ("last_update_date", plainOfDate lud.toStamp),
      ("qubits", Plain.list (qubits.map (fun ps => Plain.list (ps.map Nduv.to_dict)))),
      ("gates", Plain.list (gates.map GateProperties.to_dict)),
      ("general", Plain.list (general.map Nduv.to_dict))] ++ kwargs).filter
        (fun e => decide (e.1 ∉ coreKeys))) = kwargs := by
    rw [List.filter_append]
    have hbase : (([("backend_name", Plain.str bn),
        ("backend_version", Plain.str bv),
        ("last_update_date", plainOfDate lud.toStamp),
        ("qubits", Plain.list (qubits.map (fun ps => Plain.list (ps.map Nduv.to_dict)))),
        ("gates", Plain.list (gates.map GateProperties.to_dict)),
        ("general", Plain.list (general.map Nduv.to_dict))] :
          List (String × Plain)).filter (fun e => decide (e.1 ∉ coreKeys))) = [] := by
      simp [coreKeys]
    have hdata : kwargs.filter (fun e => decide (e.1 ∉ coreKeys)) = kwargs :=
      List.filter_eq_self.mpr (fun e he => by
        simpa using hdis e.1 (List.mem_map_of_mem Prod.fst he))
    rw [hbase, hdata, List.nil_append]
  rcases hts : lud.toStamp with _ | t
  · have fdate : plainToDateInput (plainOfDate none) = some DateInput.nul := rfl
    rw [hts] at f1 f2 f3 f4 f5 f6 ffil
    simp only [AerBackendProperties.from_dict, f1, f2, f3, f4, f5, f6, fdate,
      fq, fg, fgen, ffil]
    rw [mkProps, if_pos ⟨hnd, hdis⟩, hqi, except_bind_ok, hgi, except_bind_ok]
    rfl
  · have fdate : plainToDateInput (plainOfDate (some t)) = some (DateInput.dt t) := rfl
    rw [hts] at f1 f2 f3 f4 f5 f6 ffil
    simp only [AerBackendProperties.from_dict, f1, f2, f3, f4, f5, f6, fdate,
      fq, fg, fgen, ffil]
    rw [mkProps, if_pos ⟨hnd, hdis⟩, hqi, except_bind_ok, hgi, except_bind_ok]
    rfl

/-- Witness for C1: the sample snapshot, constructed from an ISO string,
deserializes from its own serialization to itself, and stores the parsed
timestamp. -/
theorem roundtrip_from_dict_to_dict_witness :
    AerBackendProperties.from_dict wSnap.to_dict = Except.ok wSnap ∧
    wSnap.last_update_date = some (isoparse "2024-05-01") := by
  obtain ⟨h1, h2⟩ := roundtrip_from_dict_to_dict "aer" "1" (DateInput.str "2024-05-01")
    [[wT1], [wOpNd], []] [wGate] [] [] wSnap rfl (by simp [wGate, GateProperties.wfBag])
  exact ⟨h1, h2 "2024-05-01" rfl⟩

/-! ## Converter lemmas -/

theorem dfind?_map_const {V : Type} (l : List Nat) (v : V) (i : Nat) :
    dfind? (l.map (fun j => (j, v))) i = if i ∈ l then some v else none := by
  induction l with
  | nil => simp [dfind?]
  | cons x rest ih =>
    by_cases hx : x = i
    · subst hx
      simp [dfind?]
    · have hx' : i ∈ x :: rest ↔ i ∈ rest := by
        rw [List.mem_cons]
        exact or_iff_right (fun h => hx h.symm)
      rw [List.map_cons, dfind?, if_neg hx, ih]
      exact if_congr hx'.symm rfl rfl

theorem initSlots_find {n i : Nat} (h : i < n) :
    dfind? (initSlots (some n)) i = some none := by
  show dfind? ((List.range n).map (fun j => (j, none))) i = some none
  rw [dfind?_map_const]
  simp [List.mem_range, h]

theorem dfind?_some_mem {K V : Type} [DecidableEq K] {d : List (K × V)} {k : K} {v : V}
    (h : dfind? d k = some v) : (k, v) ∈ d := by
  induction d with
  | nil => cases h
  | cons e rest ih =>
    obtain ⟨ek, ev⟩ := e
    by_cases hek : ek = k
    · rw [dfind?, if_pos hek] at h
      cases h
      subst hek
      exact List.mem_cons_self _ _
    · rw [dfind?, if_neg hek] at h
      exact List.mem_cons_of_mem _ (ih h)

theorem any_none_of_slot {qp : List (Nat × Option (List Plain))} {i : Nat}
    (h : dfind? qp i = some none) : qp.any (fun s => s.2.isNone) = true :=
  List.any_eq_true.mpr ⟨(i, none), dfind?_some_mem h, rfl⟩

theorem processGateEntries_nil {now : Timestamp} {gate : String}
    {ql : List (Option (List Nat) × InstructionProperties)}
    (h : ∀ e ∈ ql, e.2.duration = none ∧ e.2.error = none) :
    processGateEntries now gate ql = Except.ok [] := by
  induction ql with
  | nil => rfl
  | cons e rest ih =>
    obtain ⟨qargs, props⟩ := e
    have hd := h (qargs, props) (by simp)
    have hd1 : props.duration = none := hd.1
    have hd2 : props.error = none := hd.2
    have hpl : gatePropList now props = [] := by
      simp [gatePropList, hd1, hd2]
    have ih' := ih (fun e he => h e (by simp [he]))
    simp [processGateEntries, hpl, ih']

theorem measureScan_ok {now : Timestamp}
    {ql : List (Option (List Nat) × InstructionProperties)}
    (hwf : ∀ e ∈ ql, ∀ l, e.1 = some l → l ≠ []) :
    ∀ acc, ∃ qp, measureScan now ql acc = Except.ok qp := by
  induction ql with
  | nil => exact fun acc => ⟨acc, rfl⟩
  | cons e rest ih =>
    intro acc
    obtain ⟨qargs, props⟩ := e
    rcases qargs with _ | l
    · simpa [measureScan] using ih (fun e he => hwf e (by simp [he])) acc
    · rcases hl : l with _ | ⟨q, tl⟩
      · exact absurd rfl (hl ▸ hwf (some l, props) (by simp) l rfl)
      · by_cases hpl : (measurePropList now props).isEmpty
        · exact ⟨[], by rw [measureScan]; simp [hpl]⟩
        · have := ih (fun e he => hwf e (by simp [he]))
            (dinsert acc q (some (measurePropList now props)))
          obtain ⟨qp, hqp⟩ := this
          exact ⟨qp, by rw [measureScan]; simpa [hpl] using hqp⟩

theorem measureScan_bad {now : Timestamp}
    {ql : List (Option (List Nat) × InstructionProperties)}
    (hbad : ∃ e ∈ ql, e.1 ≠ none ∧ e.2.duration = none ∧ e.2.error = none) :
    ∀ acc, (∃ m, measureScan now ql acc = Except.error m) ∨
      measureScan now ql acc = Except.ok [] := by
  induction ql with
  | nil =>
    obtain ⟨e, he, -⟩ := hbad
    cases he
  | cons e rest ih =>
    intro acc
    obtain ⟨qargs, props⟩ := e
    rcases qargs with _ | l
    · obtain ⟨e', he', hb⟩ := hbad
      rcases List.mem_cons.mp he' with he0 | hrest
      · rw [he0] at hb
        exact absurd rfl hb.1
      · simpa [measureScan] using ih ⟨e', hrest, hb⟩ acc
    · rcases l with _ | ⟨q, tl⟩
      · exact Or.inl ⟨_, by rw [measureScan]⟩
      · by_cases hpl : (measurePropList now props).isEmpty
        · right
          rw [measureScan]
          simp [hpl]
        · obtain ⟨e', he', hb⟩ := hbad
          rcases List.mem_cons.mp he' with he0 | hrest
          · exfalso
            rw [he0] at hb
            have hb1 : props.duration = none := hb.2.1
            have hb2 : props.error = none := hb.2.2
            apply hpl
            simp [measurePropList, hb1, hb2]
          · have := ih ⟨e', hrest, hb⟩
              (dinsert acc q (some (measurePropList now props)))
            rcases this with ⟨m, hm⟩ | hok
            · exact Or.inl ⟨m, by rw [measureScan]; simpa [hpl] using hm⟩
            · exact Or.inr (by rw [measureScan]; simpa [hpl] using hok)

theorem measureScan_slot {now : Timestamp} {i : Nat}
    {ql : List (Option (List Nat) × InstructionProperties)} :
    ∀ acc qp, measureScan now ql acc = Except.ok qp →
      (∀ e ∈ ql, ∀ l, e.1 = some l → l.head? ≠ some i) →
      dfind? acc i = some none →
      qp = [] ∨ dfind? qp i = some none := by
  induction ql with
  | nil =>
    intro acc qp h _ hacc
    cases h
    exact Or.inr hacc
  | cons e rest ih =>
    intro acc qp h hcov hacc
    obtain ⟨qargs, props⟩ := e
    rcases qargs with _ | l
    · exact ih acc qp (by simpa [measureScan] using h)
        (fun e he => hcov e (by simp [he])) hacc
    · rcases l with _ | ⟨q, tl⟩
      · rw [measureScan] at h
        cases h
      · by_cases hpl : (measurePropList now props).isEmpty
        · rw [measureScan] at h
          simp [hpl] at h
          exact Or.inl h
        · have hqi : q ≠ i := by
            have := hcov (some (q :: tl), props) (by simp) (q :: tl) rfl
            simpa using this
          have hacc' : dfind? (dinsert acc q (some (measurePropList now props))) i =
              some none := by
            rw [dfind?_dinsert, if_neg hqi]
            exact hacc
          refine ih _ qp ?_ (fun e he => hcov e (by simp [he])) hacc'
          rw [measureScan] at h
          simpa [hpl] using h

theorem dinsert_mem {K V : Type} [DecidableEq K] {d : List (K × V)} {k : K} {v : V}
    {e : K × V} (h : e ∈ dinsert d k v) : e ∈ d ∨ e = (k, v) := by
  induction d with
  | nil =>
    right
    simpa [dinsert] using h
  | cons f rest ih =>
    obtain ⟨fk, fv⟩ := f
    by_cases hfk : fk = k
    · rw [dinsert, if_pos hfk] at h
      rcases List.mem_cons.mp h with he | hr
      · right
        rw [he, hfk]
      · exact Or.inl (List.mem_cons_of_mem _ hr)
    · rw [dinsert, if_neg hfk] at h
      rcases List.mem_cons.mp h with he | hr
      · exact Or.inl (by simp [he])
      · rcases ih hr with h1 | h2
        · exact Or.inl (List.mem_cons_of_mem _ h1)
        · exact Or.inr h2

theorem mapExcept_ok_mem {α β : Type} {f : α → Except String β} :
    ∀ {l : List α} {out : List β}, mapExcept f l = Except.ok out →
      ∀ b ∈ out, ∃ a ∈ l, f a = Except.ok b := by
  intro l
  induction l with
  | nil =>
    intro out h b hb
    cases h
    simp at hb
  | cons x rest ih =>
    intro out h b hb
    rcases hf : f x with m | bx
    · rw [mapExcept, hf, except_bind_error] at h
      cases h
    · rw [mapExcept, hf, except_bind_ok] at h
      rcases ht : mapExcept f rest with m | tail
      · rw [ht, except_bind_error] at h
        cases h
      · rw [ht, except_bind_ok] at h
        cases h
        rcases List.mem_cons.mp hb with he | hr
        · subst he
          exact ⟨x, by simp, hf⟩
        · obtain ⟨a, ha, hfa⟩ := ih ht b hr
          exact ⟨a, by simp [ha], hfa⟩

theorem toBaseUnit_isSome (v : ℚ) (u : String) :
    (toBaseUnit v u).isSome = (prefixFactor u).isSome := by
  rw [toBaseUnit]
  rcases prefixFactor u with _ | f <;> rfl

theorem goodNdv_seconds (now : Timestamp) (nm : String) (v : ℚ) :
    GoodNdvPlain (ndvDict now nm "s" v) :=
  ⟨⟨now, nm, "s", v⟩, by simp [ndvDict, Nduv.from_dict, dfind?], rfl⟩

theorem goodNdv_dimensionless (now : Timestamp) (nm : String) (v : ℚ) :
    GoodNdvPlain (ndvDict now nm "" v) :=
  ⟨⟨now, nm, "", v⟩, by simp [ndvDict, Nduv.from_dict, dfind?], rfl⟩

theorem gatePropList_good {now : Timestamp} {props : InstructionProperties} :
    ∀ x ∈ gatePropList now props, GoodNdvPlain x := by
  intro x hx
  rw [gatePropList] at hx
  rcases List.mem_append.mp hx with h | h
  · rcases hd : props.duration with _ | d
    · rw [hd] at h; simp at h
    · rw [hd] at h
      simp at h
      rw [h]
      exact goodNdv_seconds now "gate_length" d
  · rcases he : props.error with _ | e
    · rw [he] at h; simp at h
    · rw [he] at h
      simp at h
      rw [h]
      exact goodNdv_dimensionless now "gate_error" e

theorem measurePropList_good {now : Timestamp} {props : InstructionProperties} :
    ∀ x ∈ measurePropList now props, GoodNdvPlain x := by
  intro x hx
  rw [measurePropList] at hx
  rcases List.mem_append.mp hx with h | h
  · rcases he : props.error with _ | e
    · rw [he] at h; simp at h
    · rw [he] at h
      simp at h
      rw [h]
      exact goodNdv_dimensionless now "readout_error" e
  · rcases hd : props.duration with _ | d
    · rw [hd] at h; simp at h
    · rw [hd] at h
      simp at h
      rw [h]
      exact goodNdv_seconds now "readout_length" d

theorem parseList_good_ndv {pl : List Plain} (h : ∀ x ∈ pl, GoodNdvPlain x) :
    ∃ nds, parseList Nduv.from_dict pl = some nds ∧
      ∀ nd ∈ nds, (prefixFactor nd.unit).isSome := by
  induction pl with
  | nil => exact ⟨[], rfl, by simp⟩
  | cons x rest ih =>
    obtain ⟨nd, hnd, hu⟩ := h x (by simp)
    obtain ⟨nds, hnds, hus⟩ := ih (fun y hy => h y (by simp [hy]))
    refine ⟨nd :: nds, by rw [parseList, hnd, hnds], ?_⟩
    intro nd' h'
    rcases List.mem_cons.mp h' with he | hr
    · subst he; exact hu
    · exact hus nd' hr

theorem goodGate_mk {now : Timestamp} {gate : String} {l : List Nat} {pl : List Plain}
    (h : ∀ x ∈ pl, GoodNdvPlain x) : GoodGatePlain (mkGateDict now gate l pl) := by
  obtain ⟨nds, hnds, hus⟩ := parseList_good_ndv h
  refine ⟨⟨l, gate, nds,
    [("name", Plain.str (gate ++ String.intercalate "_" (l.map toString)))]⟩, ?_, hus⟩
  have hq : parseList parseInt (l.map Plain.int) = some l :=
    parseList_map (fun x _ => rfl)
  simp [mkGateDict, GateProperties.from_dict, dfind?, hq, hnds, gpCoreKeys]

theorem processGateEntries_good {now : Timestamp} {gate : String} :
    ∀ {ql : List (Option (List Nat) × InstructionProperties)} {gl : List Plain},
      processGateEntries now gate ql = Except.ok gl →
      ∀ x ∈ gl, GoodGatePlain x := by
  intro ql
  induction ql with
  | nil =>
    intro gl h x hx
    cases h
    simp at hx
  | cons e rest ih =>
    intro gl h x hx
    obtain ⟨qargs, props⟩ := e
    by_cases hpl : (gatePropList now props).isEmpty
    · simp only [processGateEntries, hpl, if_true] at h
      exact ih h x hx
    · simp only [processGateEntries, hpl, Bool.false_eq_true, if_false] at h
      rcases qargs with _ | l
      · cases h
      · have h2 : (processGateEntries now gate rest >>= fun tail =>
            Except.ok (mkGateDict now gate l (gatePropList now props) :: tail)) =
            Except.ok gl := h
        rcases ht : processGateEntries now gate rest with m | tail
        · rw [ht, except_bind_error] at h2
          cases h2
        · rw [ht, except_bind_ok] at h2
          cases h2
          rcases List.mem_cons.mp hx with he | hr
          · subst he
            exact goodGate_mk gatePropList_good
          · exact ih ht x hr

theorem measureScan_good {now : Timestamp} :
    ∀ {ql : List (Option (List Nat) × InstructionProperties)}
      (acc qp : List (Nat × Option (List Plain))),
      measureScan now ql acc = Except.ok qp →
      (∀ e ∈ acc, e.2 = none ∨ ∃ pl, e.2 = some pl ∧ ∀ x ∈ pl, GoodNdvPlain x) →
      ∀ e ∈ qp, e.2 = none ∨ ∃ pl, e.2 = some pl ∧ ∀ x ∈ pl, GoodNdvPlain x := by
  intro ql
  induction ql with
  | nil =>
    intro acc qp h hacc
    cases h
    exact hacc
  | cons e rest ih =>
    intro acc qp h hacc
    obtain ⟨qargs, props⟩ := e
    rcases qargs with _ | l
    · exact ih acc qp (by simpa [measureScan] using h) hacc
    · rcases l with _ | ⟨q, tl⟩
      · rw [measureScan] at h
        cases h
      · by_cases hpl : (measurePropList now props).isEmpty
        · rw [measureScan] at h
          simp [hpl] at h
          subst h
          simp
        · refine ih (dinsert acc q (some (measurePropList now props))) qp ?_ ?_
          · rw [measureScan] at h
            simpa [hpl] using h
          · intro e he
            rcases dinsert_mem he with h1 | h2
            · exact hacc e h1
            · right
              refine ⟨measurePropList now props, ?_, measurePropList_good⟩
              rw [h2]

theorem extractSlots_good {n : Option Nat} {qp : List (Nat × Option (List Plain))}
    {qs : List Plain} (h : extractSlots n qp = Except.ok qs)
    (hgood : ∀ e ∈ qp, e.2 = none ∨ ∃ pl, e.2 = some pl ∧ ∀ x ∈ pl, GoodNdvPlain x)
    (hnone : qp.any (fun s => s.2.isNone) = false) :
    ∀ x ∈ qs, GoodQubitPlain x := by
  rcases n with _ | nq
  · cases h
  · intro x hx
    obtain ⟨i, hi, hfi⟩ := mapExcept_ok_mem h x hx
    rcases hf : dfind? qp i with _ | s
    · rw [hf] at hfi
      cases hfi
    · rcases s with _ | pl
      · exfalso
        rw [any_none_of_slot hf] at hnone
        cases hnone
      · rw [hf] at hfi
        have hx2 : x = Plain.list pl := by
          have : Except.ok (Plain.list pl) = Except.ok x := hfi
          exact ((Except.ok.injEq _ _).mp this).symm
        subst hx2
        have hmem := dfind?_some_mem hf
        rcases hgood (i, some pl) hmem with h1 | ⟨pl', h2, h3⟩
        · cases h1
        · refine ⟨pl, rfl, ?_⟩
          have : pl = pl' := (Option.some.injEq _ _).mp h2
          rw [this]
          exact h3

theorem convLoop_good {now : Timestamp} :
    ∀ {items : List (String × List (Option (List Nat) × InstructionProperties))}
      (gacc qacc : List Plain) (n : Option Nat) (g q : List Plain),
      convLoop now items gacc qacc n = Except.ok (g, q) →
      (∀ x ∈ gacc, GoodGatePlain x) → (∀ x ∈ qacc, GoodQubitPlain x) →
      (∀ x ∈ g, GoodGatePlain x) ∧ (∀ x ∈ q, GoodQubitPlain x) := by
  intro items
  induction items with
  | nil =>
    intro gacc qacc n g q h hg hq
    cases h
    exact ⟨hg, hq⟩
  | cons it rest ih =>
    intro gacc qacc n g q h hg hq
    obtain ⟨gate, ql⟩ := it
    by_cases hgate : gate = "measure"
    · have hcond : ¬(gate ≠ "measure") := fun hne => hne hgate
      simp only [convLoop] at h
      rw [if_neg hcond] at h
      rcases hscan : measureScan now ql (initSlots n) with m | qp
      · rw [hscan, except_bind_error] at h
        cases h
      · rw [hscan, except_bind_ok] at h
        by_cases hguard : (qp.isEmpty || qp.any (fun s => s.2.isNone)) = true
        · rw [if_pos hguard] at h
          exact ih gacc qacc n g q h hg hq
        · rw [if_neg hguard] at h
          rcases hex : extractSlots n qp with m | qus
          · rw [hex, except_bind_error] at h
            cases h
          · rw [hex, except_bind_ok] at h
            have hqpgood : ∀ e ∈ qp, e.2 = none ∨
                ∃ pl, e.2 = some pl ∧ ∀ x ∈ pl, GoodNdvPlain x := by
              refine measureScan_good (initSlots n) qp hscan ?_
              intro e he
              rcases n with _ | nq
              · simp [initSlots] at he
              · simp only [initSlots] at he
                obtain ⟨j, hj, hje⟩ := List.mem_map.mp he
                rw [← hje]
                exact Or.inl rfl
            have hnone : qp.any (fun s => s.2.isNone) = false := by
              have h3 : (qp.isEmpty || qp.any (fun s => s.2.isNone)) = false := by
                revert hguard
                cases qp.isEmpty || qp.any (fun s => s.2.isNone) <;> simp
              exact (Bool.or_eq_false_iff.mp h3).2
            exact ih gacc qus n g q h hg (extractSlots_good hex hqpgood hnone)
    · simp only [convLoop] at h
      rw [if_pos hgate] at h
      rcases hpg : processGateEntries now gate ql with m | gl
      · rw [hpg, except_bind_error] at h
        cases h
      · rw [hpg, except_bind_ok] at h
        refine ih (gacc ++ gl) qacc n g q h ?_ hq
        intro x hx
        rcases List.mem_append.mp hx with h1 | h1
        · exact hg x h1
        · exact processGateEntries_good hpg x h1

theorem convLoop_qubits_nil {now : Timestamp} {n : Nat} :
    ∀ {items : List (String × List (Option (List Nat) × InstructionProperties))},
      (∀ ql, ("measure", ql) ∈ items →
        (∃ e ∈ ql, e.1 ≠ none ∧ e.2.duration = none ∧ e.2.error = none) ∨
        (∃ i, i < n ∧ ∀ e ∈ ql, ∀ l, e.1 = some l → l.head? ≠ some i)) →
      ∀ gacc g q, convLoop now items gacc [] (some n) = Except.ok (g, q) → q = [] := by
  intro items
  induction items with
  | nil =>
    intro _ gacc g q h
    cases h
    rfl
  | cons it rest ih =>
    intro hm gacc g q h
    obtain ⟨gate, ql⟩ := it
    by_cases hgate : gate = "measure"
    · have hcond : ¬(gate ≠ "measure") := fun hne => hne hgate
      simp only [convLoop] at h
      rw [if_neg hcond] at h
      rcases hscan : measureScan now ql (initSlots (some n)) with m | qp
      · rw [hscan, except_bind_error] at h
        cases h
      · rw [hscan, except_bind_ok] at h
        have hm0 := hm ql (by rw [hgate]; exact List.mem_cons_self _ _)
        have hguard : (qp.isEmpty || qp.any (fun s => s.2.isNone)) = true := by
          rcases hm0 with hbadE | ⟨i, hi, hcov⟩
          · rcases measureScan_bad hbadE (initSlots (some n)) with ⟨m, hm'⟩ | hok
            · rw [hscan] at hm'
              cases hm'
            · rw [hscan] at hok
              have hqp : qp = [] := (Except.ok.injEq _ _).mp hok
              simp [hqp]
          · rcases measureScan_slot (initSlots (some n)) qp hscan hcov
              (initSlots_find hi) with hnil | hslot
            · simp [hnil]
            · simp [any_none_of_slot hslot]
        rw [if_pos hguard] at h
        exact ih (fun ql hql => hm ql (List.mem_cons_of_mem _ hql)) gacc g q h
    · simp only [convLoop] at h
      rw [if_pos hgate] at h
      rcases hpg : processGateEntries now gate ql with m | gl
      · rw [hpg, except_bind_error] at h
        cases h
      · rw [hpg, except_bind_ok] at h
        exact ih (fun ql hql => hm ql (List.mem_cons_of_mem _ hql)) (gacc ++ gl) g q h

theorem convLoop_empty {now : Timestamp} {n : Nat} :
    ∀ {items : List (String × List (Option (List Nat) × InstructionProperties))},
      (∀ gate ql, (gate, ql) ∈ items → gate ≠ "measure" →
        ∀ e ∈ ql, e.2.duration = none ∧ e.2.error = none) →
      (∀ ql, ("measure", ql) ∈ items →
        (∃ e ∈ ql, e.1 ≠ none ∧ e.2.duration = none ∧ e.2.error = none) ∨
        (∃ i, i < n ∧ ∀ e ∈ ql, ∀ l, e.1 = some l → l.head? ≠ some i)) →
      (∀ ql, ("measure", ql) ∈ items → ∀ e ∈ ql, ∀ l, e.1 = some l → l ≠ []) →
      ∀ gacc, convLoop now items gacc [] (some n) = Except.ok (gacc, []) := by
  intro items
  induction items with
  | nil => intro _ _ _ gacc; rfl
  | cons it rest ih =>
    intro h1 hm hwf gacc
    obtain ⟨gate, ql⟩ := it
    by_cases hgate : gate = "measure"
    · subst hgate
      have hcond : ¬("measure" ≠ "measure") := fun hne => hne rfl
      simp only [convLoop]
      rw [if_neg hcond]
      obtain ⟨qp, hscan⟩ := measureScan_ok (hwf ql (by simp)) (initSlots (some n))
      rw [hscan, except_bind_ok]
      have hguard : (qp.isEmpty || qp.any (fun s => s.2.isNone)) = true := by
        rcases hm ql (by simp) with hbadE | ⟨i, hi, hcov⟩
        · rcases measureScan_bad hbadE (initSlots (some n)) with ⟨m, hm'⟩ | hok
          · rw [hscan] at hm'
            cases hm'
          · rw [hscan] at hok
            have hqp : qp = [] := (Except.ok.injEq _ _).mp hok
            simp [hqp]
        · rcases measureScan_slot (initSlots (some n)) qp hscan hcov
            (initSlots_find hi) with hnil | hslot
          · simp [hnil]
          · simp [any_none_of_slot hslot]
      rw [if_pos hguard]
      exact ih (fun gate ql hql => h1 gate ql (List.mem_cons_of_mem _ hql))
        (fun ql hql => hm ql (List.mem_cons_of_mem _ hql))
        (fun ql hql => hwf ql (List.mem_cons_of_mem _ hql)) gacc
    · simp only [convLoop]
      rw [if_pos hgate, processGateEntries_nil (h1 gate ql (by simp) hgate),
        except_bind_ok, List.append_nil]
      exact ih (fun gate ql hql => h1 gate ql (List.mem_cons_of_mem _ hql))
        (fun ql hql => hm ql (List.mem_cons_of_mem _ hql))
        (fun ql hql => hwf ql (List.mem_cons_of_mem _ hql)) gacc

theorem parseList_gates_good {g : List Plain} (h : ∀ x ∈ g, GoodGatePlain x) :
    ∃ gl, parseList GateProperties.from_dict g = some gl ∧
      ∀ gp ∈ gl, ∀ nd ∈ gp.parameters, (toBaseUnit nd.value nd.unit).isSome := by
  induction g with
  | nil => exact ⟨[], rfl, by simp⟩
  | cons x rest ih =>
    obtain ⟨gp, hgp, hus⟩ := h x (by simp)
    obtain ⟨gl, hgl, hres⟩ := ih (fun y hy => h y (by simp [hy]))
    refine ⟨gp :: gl, by rw [parseList, hgp, hgl], ?_⟩
    intro gp' h' nd hnd
    rcases List.mem_cons.mp h' with he | hr
    · subst he
      rw [toBaseUnit_isSome]
      exact hus nd hnd
    · exact hres gp' hr nd hnd

theorem parseList_qubits_good {q : List Plain} (h : ∀ x ∈ q, GoodQubitPlain x) :
    ∃ qls, parseList parseQubitEntry q = some qls ∧
      ∀ ps ∈ qls, ∀ nd ∈ ps, (toBaseUnit nd.value nd.unit).isSome := by
  induction q with
  | nil => exact ⟨[], rfl, by simp⟩
  | cons x rest ih =>
    obtain ⟨pl, hpl, hgood⟩ := h x (by simp)
    obtain ⟨nds, hnds, hus⟩ := parseList_good_ndv hgood
    obtain ⟨qls, hqls, hres⟩ := ih (fun y hy => h y (by simp [hy]))
    have hx : parseQubitEntry x = some nds := by
      rw [hpl, parseQubitEntry, hnds]
    refine ⟨nds :: qls, by rw [parseList, hx, hqls], ?_⟩
    intro ps h' nd hnd
    rcases List.mem_cons.mp h' with he | hr
    · subst he
      rw [toBaseUnit_isSome]
      exact hus nd hnd
    · exact hres ps hr nd hnd

theorem from_dict_conv_ok {g q : List Plain}
    (hg : ∀ x ∈ g, GoodGatePlain x) (hq : ∀ x ∈ q, GoodQubitPlain x) :
    ∃ S, AerBackendProperties.from_dict
      (Plain.dict [("backend_name", Plain.str ""), ("backend_version", Plain.str ""),
        ("last_update_date", Plain.nul), ("general", Plain.list []),
        ("gates", Plain.list g), ("qubits", Plain.list q)]) = Except.ok S := by
  obtain ⟨gl, hgl, hglres⟩ := parseList_gates_good hg
  obtain ⟨qls, hqls, hqlres⟩ := parseList_qubits_good hq
  have hflat : ∀ nd ∈ qls.flatten, (toBaseUnit nd.value nd.unit).isSome := by
    intro nd hnd
    obtain ⟨ps, hps, hnd2⟩ := List.mem_flatten.mp hnd
    exact hqlres ps hps nd hnd2
  have hqidx := buildQubitIndexAux_eq_spec 0 hflat
  obtain ⟨gi, hgi⟩ := buildGateIndex_ok_of []
    (fun g' hg' => resolveProps_ok_of [] (hglres g' hg'))
  refine ⟨⟨"", "", none, qls, gl, [], qIdxSpec 0 qls, gi, []⟩, ?_⟩
  have e1 : dfind? [("backend_name", Plain.str ""), ("backend_version", Plain.str ""),
      ("last_update_date", Plain.nul), ("general", Plain.list []),
      ("gates", Plain.list g), ("qubits", Plain.list q)] "backend_name" =
      some (Plain.str "") := rfl
  have e2 : dfind? [("backend_name", Plain.str ""), ("backend_version", Plain.str ""),
      ("last_update_date", Plain.nul), ("general", Plain.list []),
      ("gates", Plain.list g), ("qubits", Plain.list q)] "backend_version" =
      some (Plain.str "") := rfl
  have e3 : dfind? [("backend_name", Plain.str ""), ("backend_version", Plain.str ""),
      ("last_update_date", Plain.nul), ("general", Plain.list []),
      ("gates", Plain.list g), ("qubits", Plain.list q)] "last_update_date" =
      some Plain.nul := rfl
  have e4 : dfind? [("backend_name", Plain.str ""), ("backend_version", Plain.str ""),
      ("last_update_date", Plain.nul), ("general", Plain.list []),
      ("gates", Plain.list g), ("qubits", Plain.list q)] "qubits" =
      some (Plain.list q) := rfl
  have e5 : dfind? [("backend_name", Plain.str ""), ("backend_version", Plain.str ""),
      ("last_update_date", Plain.nul), ("general", Plain.list []),
      ("gates", Plain.list g), ("qubits", Plain.list q)] "gates" =
      some (Plain.list g) := rfl
  have e6 : dfind? [("backend_name", Plain.str ""), ("backend_version", Plain.str ""),
      ("last_update_date", Plain.nul), ("general", Plain.list []),
      ("gates", Plain.list g), ("qubits", Plain.list q)] "general" =
      some (Plain.list []) := rfl
  have efil : ([("backend_name", Plain.str ""), ("backend_version", Plain.str ""),
      ("last_update_date", Plain.nul), ("general", Plain.list []),
      ("gates", Plain.list g), ("qubits", Plain.list q)]).filter
        (fun e => decide (e.1 ∉ coreKeys)) = [] := rfl
  have egen : parseList Nduv.from_dict [] = some [] := rfl
  have edate : plainToDateInput Plain.nul = some DateInput.nul := rfl
  simp only [AerBackendProperties.from_dict, e1, e2, e3, e4, e5, e6, efil,
    egen, edate, hgl, hqls]
  rw [mkProps, if_pos (by simp), hqidx, except_bind_ok, hgi, except_bind_ok]
  rfl

theorem from_dict_qubits_nil {g : List Plain} {S : AerBackendProperties}
    (h : AerBackendProperties.from_dict
      (Plain.dict [("backend_name", Plain.str ""), ("backend_version", Plain.str ""),
        ("last_update_date", Plain.nul), ("general", Plain.list []),
        ("gates", Plain.list g), ("qubits", Plain.list [])]) = Except.ok S) :
    S.qubits = [] := by
  have e1 : dfind? [("backend_name", Plain.str ""), ("backend_version", Plain.str ""),
      ("last_update_date", Plain.nul), ("general", Plain.list []),
      ("gates", Plain.list g), ("qubits", Plain.list [])] "backend_name" =
      some (Plain.str "") := rfl
  have e2 : dfind? [("backend_name", Plain.str ""), ("backend_version", Plain.str ""),
      ("last_update_date", Plain.nul), ("general", Plain.list []),
      ("gates", Plain.list g), ("qubits", Plain.list [])] "backend_version" =
      some (Plain.str "") := rfl
  have e3 : dfind? [("backend_name", Plain.str ""), ("backend_version", Plain.str ""),
      ("last_update_date", Plain.nul), ("general", Plain.list []),
      ("gates", Plain.list g), ("qubits", Plain.list [])] "last_update_date" =
      some Plain.nul := rfl
  have e4 : dfind? [("backend_name", Plain.str ""), ("backend_version", Plain.str ""),
      ("last_update_date", Plain.nul), ("general", Plain.list []),
      ("gates", Plain.list g), ("qubits", Plain.list [])] "qubits" =
      some (Plain.list []) := rfl
  have e5 : dfind? [("backend_name", Plain.str ""), ("backend_version", Plain.str ""),
      ("last_update_date", Plain.nul), ("general", Plain.list []),
      ("gates", Plain.list g), ("qubits", Plain.list [])] "gates" =
      some (Plain.list g) := rfl
  have e6 : dfind? [("backend_name", Plain.str ""), ("backend_version", Plain.str ""),
      ("last_update_date", Plain.nul), ("general", Plain.list []),
      ("gates", Plain.list g), ("qubits", Plain.list [])] "general" =
      some (Plain.list []) := rfl
  have efil : ([("backend_name", Plain.str ""), ("backend_version", Plain.str ""),
      ("last_update_date", Plain.nul), ("general", Plain.list []),
      ("gates", Plain.list g), ("qubits", Plain.list [])]).filter
        (fun e => decide (e.1 ∉ coreKeys)) = [] := rfl
  have egen : parseList Nduv.from_dict [] = some [] := rfl
  have edate : plainToDateInput Plain.nul = some DateInput.nul := rfl
  have eq0 : parseList parseQubitEntry [] = some [] := rfl
  simp only [AerBackendProperties.from_dict, e1, e2, e3, e4, e5, e6, efil,
    egen, edate, eq0] at h
  rcases hgl : parseList GateProperties.from_dict g with _ | gl
  · rw [hgl] at h
    cases h
  · rw [hgl] at h
    obtain ⟨-, qi, gi, -, -, hSlit⟩ := mkProps_ok_inv h
    rw [hSlit]

/-- C5: with a declared qubit count, whenever the measure operation has an
entry lacking both error and duration, or leaves some declared qubit
uncovered, a converted snapshot carries no per-qubit properties at all —
readout data is all-or-nothing. -/
theorem converter_all_or_nothing :
    ∀ (now : Timestamp) (t : Target) (n : Nat) (r : Option AerBackendProperties),
      t.num_qubits = some n →
      (∀ ql, ("measure", ql) ∈ t.items →
        (∃ e ∈ ql, e.1 ≠ none ∧ e.2.duration = none ∧ e.2.error = none) ∨
        (∃ i, i < n ∧ ∀ e ∈ ql, ∀ l, e.1 = some l → l.head? ≠ some i)) →
      target_to_backend_properties now t = Except.ok r →
      ∀ S, r = some S → S.qubits = [] := by
  intro now t n r hn hm h S hr
  subst hr
  rw [target_to_backend_properties, hn] at h
  rcases hconv : convLoop now t.items [] [] (some n) with m | gq
  · rw [hconv, except_bind_error] at h
    cases h
  · rw [hconv, except_bind_ok] at h
    obtain ⟨g, q⟩ := gq
    have hqnil : q = [] := convLoop_qubits_nil hm [] g q hconv
    subst hqnil
    have h2 : (if (g.isEmpty && ([] : List Plain).isEmpty) = true then
          (Except.ok none : Except String (Option AerBackendProperties))
        else
          AerBackendProperties.from_dict (Plain.dict
            [("backend_name", Plain.str ""), ("backend_version", Plain.str ""),
             ("last_update_date", Plain.nul), ("general", Plain.list []),
             ("gates", Plain.list g), ("qubits", Plain.list [])]) >>= fun S' =>
          Except.ok (some S')) = Except.ok (some S) := h
    by_cases hge : (g.isEmpty && ([] : List Plain).isEmpty) = true
    · rw [if_pos hge] at h2
      cases h2
    · rw [if_neg hge] at h2
      rcases hfd : AerBackendProperties.from_dict (Plain.dict
          [("backend_name", Plain.str ""), ("backend_version", Plain.str ""),
           ("last_update_date", Plain.nul), ("general", Plain.list []),
           ("gates", Plain.list g), ("qubits", Plain.list [])]) with m | S'
      · rw [hfd, except_bind_error] at h2
        cases h2
      · rw [hfd, except_bind_ok] at h2
        have hSS : S' = S := by
          have := (Except.ok.injEq _ _).mp h2
          exact (Option.some.injEq _ _).mp this
        rw [← hSS]
        exact from_dict_qubits_nil hfd

/-- Witness for C5: in `wTg1`, qubit 1's measure entry has neither error nor
duration, so the converted snapshot has gate data but no qubit data. -/
theorem converter_all_or_nothing_witness :
    target_to_backend_properties wTime wTg1 = Except.ok (some wConvS) ∧
    wConvS.qubits = [] := by
  have hres : target_to_backend_properties wTime wTg1 = Except.ok (some wConvS) := rfl
  refine ⟨hres, ?_⟩
  refine converter_all_or_nothing wTime wTg1 2 (some wConvS) rfl ?_ hres wConvS rfl
  intro ql hql
  simp [wTg1] at hql
  subst hql
  left
  exact ⟨(some [1], ⟨none, none⟩), by simp, by simp, rfl, rfl⟩

/-- C6: a capability map with no non-measure timing/error data, no complete
measure coverage (and well-formed measure qubit tuples) converts to no
snapshot at all (`None`); conversely, whenever the single pass produced any
gate record or qubit data, a snapshot is constructed and returned. -/
theorem converter_emptiness :
    (∀ (now : Timestamp) (t : Target) (n : Nat),
      t.num_qubits = some n →
      (∀ gate ql, (gate, ql) ∈ t.items → gate ≠ "measure" →
        ∀ e ∈ ql, e.2.duration = none ∧ e.2.error = none) →
      (∀ ql, ("measure", ql) ∈ t.items →
        (∃ e ∈ ql, e.1 ≠ none ∧ e.2.duration = none ∧ e.2.error = none) ∨
        (∃ i, i < n ∧ ∀ e ∈ ql, ∀ l, e.1 = some l → l.head? ≠ some i)) →
      (∀ ql, ("measure", ql) ∈ t.items → ∀ e ∈ ql, ∀ l, e.1 = some l → l ≠ []) →
      target_to_backend_properties now t = Except.ok none) ∧
    (∀ (now : Timestamp) (t : Target) (g q : List Plain),
      convLoop now t.items [] [] t.num_qubits = Except.ok (g, q) →
      (g ≠ [] ∨ q ≠ []) →
      ∃ S, target_to_backend_properties now t = Except.ok (some S)) := by
  constructor
  · intro now t n hn h1 hm hwf
    rw [target_to_backend_properties, hn, convLoop_empty h1 hm hwf [],
      except_bind_ok]
    rfl
  · intro now t g q hconv hne
    obtain ⟨hg, hq⟩ := convLoop_good [] [] t.num_qubits g q hconv
      (by simp) (by simp)
    obtain ⟨S, hfd⟩ := from_dict_conv_ok hg hq
    refine ⟨S, ?_⟩
    rw [target_to_backend_properties, hconv, except_bind_ok]
    have hcond : ¬(g.isEmpty && q.isEmpty) = true := by
      intro hc
      have hc2 := (Bool.and_eq_true _ _).mp hc
      rcases hne with h | h
      · exact h (List.isEmpty_iff.mp hc2.1)
      · exact h (List.isEmpty_iff.mp hc2.2)
    rw [if_neg hcond]
    have h2 : (AerBackendProperties.from_dict (Plain.dict
        [("backend_name", Plain.str ""), ("backend_version", Plain.str ""),
         ("last_update_date", Plain.nul), ("general", Plain.list []),
         ("gates", Plain.list g), ("qubits", Plain.list q)]) >>= fun S' =>
        Except.ok (some S')) = Except.ok (some S) := by
      rw [hfd, except_bind_ok]
    exact h2

/-- Witness for C6: the data-free `wTg2` converts to `None`, while `wTg1`
(with gate data) converts to a snapshot. -/
theorem converter_emptiness_witness :
    target_to_backend_properties wTime wTg2 = Except.ok none ∧
    target_to_backend_properties wTime wTg1 = Except.ok (some wConvS) := by
  constructor
  · refine converter_emptiness.1 wTime wTg2 1 rfl ?_ ?_ ?_
    · intro gate ql hql hgate e he
      simp [wTg2] at hql
      rcases hql with ⟨h1, h2⟩ | ⟨h1, h2⟩
      · subst h2
        simp at he
        subst he
        exact ⟨rfl, rfl⟩
      · exact absurd h1 hgate
    · intro ql hql
      simp [wTg2] at hql
      subst hql
      left
      exact ⟨(some [0], ⟨none, none⟩), by simp, by simp, rfl, rfl⟩
    · intro ql hql e he l hel
      simp [wTg2] at hql
      subst hql
      simp at he
      subst he
      simp at hel
      subst hel
      simp
  · have hconv : convLoop wTime wTg1.items [] [] wTg1.num_qubits =
        Except.ok ([mkGateDict wTime "cx" [0, 1]
          (gatePropList wTime ⟨some (3 / 100), none⟩)], []) := rfl
    obtain ⟨S, hS⟩ := converter_emptiness.2 wTime wTg1
      [mkGateDict wTime "cx" [0, 1] (gatePropList wTime ⟨some (3 / 100), none⟩)] []
      hconv (Or.inl (by simp))
    have hSS : wConvS = S := by
      unfold wConvS getSome
      rw [hS]
    rw [hSS]
    exact hS

end Aer
